import Mathlib

/-!
# Pangolin plotter (`src/plotter.cpp`): expression compiler, viewport controller, series pass

A shallow embedding of the pure parts of `plotter.cpp`.

Conventions of the embedding:

* a `std::string` is a `List Char`, one `Char` for each C++ `char`;
* a C++ `int` that accumulates input-driven values (`ConvertSequences`) is an `Int`
  reduced to the 32-bit two's complement range by `wrapInt` after every operation;
* a `std::set<int>` is its ascending, duplicate-free list of elements (the order in
  which its iterator visits them);
* `float` and `double` are exact rationals: rounding, infinities and NaN are not part
  of the model, and statements that involve a division by the viewport's width or height
  assume that it is not zero; the one conversion that is modelled with its rounding is
  that of a sample position to `float` in the index array of `Render` (`floatOfNat`);
* pixel coordinates (`int`) are unbounded integers;
* the sizes and sample positions of the data log (`size_t`) are natural numbers, the
  cast `(int)block->Dimensions()` is `wrapInt`, and the scratch variable `id_start`, in
  which `Render` also stores `-1`, is an `Int`.
-/

namespace Pangolin

/-! ## Machine integers and `std::set<int>` -/

/-- The value of a C++ `int` expression whose mathematical result is `x`, on a 32-bit
two's complement machine. -/
def wrapInt (x : Int) : Int := (x + 2147483648) % 4294967296 - 2147483648

/-- The model of `std::set<int>::insert`: the set is kept as an ascending duplicate-free
list. -/
def setInsert (v : Int) : List Int → List Int
  | [] => [v]
  | a :: as =>
    if v < a then v :: a :: as
    else if v = a then a :: as
    else a :: setInsert v as

/-- The model of `std::set<int>::insert(first, last)`: every element of the range is
inserted. -/
def setInsertRange (src dst : List Int) : List Int :=
  src.foldl (fun acc v => setInsert v acc) dst

/-! ## `ReplaceChar` and `ConvertSequences` -/

/-- `ReplaceChar(str, from, to)`: every occurrence of `c_from` becomes `c_to`. -/
def ReplaceChar (str : List Char) (c_from c_to : Char) : List Char :=
  str.map (fun c => if c = c_from then c_to else c)

/-- The inner loop of `ConvertSequences`: starting from `v`, consume the digits at the
front of the remaining text, `v = v*10 + (str[j] - '0')` in `int` arithmetic. -/
def digitLoop (v : Int) : List Char → Int
  | [] => v
  | c :: cs =>
    if c.isDigit then digitLoop (wrapInt (v * 10 + ((c.toNat : Int) - 48))) cs
    else v

/-- The outer loop of `ConvertSequences` over the text from position `i` on, `sequences`
being the set built so far. -/
def ConvertSequencesLoop (seq_char id_char : Char) : List Char → List Int → List Int
  | [], sequences => sequences
  | c :: rest, sequences =>
    if c = seq_char then
      if rest.head? = some id_char then
        ConvertSequencesLoop seq_char id_char rest (setInsert (-1) sequences)
      else
        ConvertSequencesLoop seq_char id_char rest (setInsert (digitLoop 0 rest) sequences)
    else
      ConvertSequencesLoop seq_char id_char rest sequences

/-- `ConvertSequences(str, seq_char, id_char)`; the source's default arguments are
`seq_char = '$'` and `id_char = 'i'`. -/
def ConvertSequences (str : List Char) (seq_char id_char : Char) : List Int :=
  ConvertSequencesLoop seq_char id_char str []

/-! ## `Plotter::PlotSeries::CreatePlot` -/

/-- A colour, four components. -/
structure Colour where
  r : ℚ
  g : ℚ
  b : ℚ
  a : ℚ
  deriving DecidableEq

/-- `PlotAttrib(name, plot_id)`. The `location` field, which the GL assigns after
linking, is not modelled. -/
structure PlotAttrib where
  name : List Char
  plot_id : Int
  deriving DecidableEq

/-- The kind of a shader handed to `GlSlProgram::AddShader`. -/
inductive GlSlShaderType where
  | GlSlVertexShader
  | GlSlFragmentShader
  deriving DecidableEq

/-- The state of a `Plotter::PlotSeries`. `prog` is the list of shader sources that were
added to the GPU program, in order. -/
structure PlotSeries where
  prog : List (GlSlShaderType × List Char)
  attribs : List PlotAttrib
  colour : Colour
  title : List Char
  contains_id : Bool
  used : Bool
  deriving DecidableEq

/-- What `oss << v` writes for an `int`. -/
def intToString (v : Int) : List Char :=
  if v < 0 then '-' :: Nat.toDigits 10 v.natAbs else Nat.toDigits 10 v.natAbs

/-- The name `CreatePlot` gives to the attribute of channel reference `i`:
`*i >= 0 ? oss.str() : "si"` where `oss` holds `"s" << *i`. -/
def attribName (i : Int) : List Char :=
  if i ≥ 0 then "s".toList ++ intToString i else "si".toList

def vs_header : List Char :=
  ("uniform int u_id_offset;\n" ++
   "uniform vec4 u_color;\n" ++
   "uniform vec2 u_scale;\n" ++
   "uniform vec2 u_offset;\n" ++
   "varying vec4 v_color;\n" ++
   "void main() \x7b\n").toList

def vs_footer : List Char :=
  ("    vec2 pos = vec2(x, y);\n" ++
   "    gl_Position = vec4(u_scale * (pos + u_offset),0,1);\n" ++
   "    v_color = u_color;\n" ++
   "\x7d\n").toList

def fs : List Char :=
  ("varying vec4 v_color;\n" ++
   "void main() \x7b\n" ++
   "  gl_FragColor = v_color;\n" ++
   "\x7d\n").toList

/-- The loop of `CreatePlot` over the channel set `as`: one `PlotAttrib` is pushed and
one declaration is appended to `vs_attrib` for each element, in iteration order. -/
def attribLoop : List Int → List PlotAttrib × List Char → List PlotAttrib × List Char
  | [], st => st
  | i :: rest, (attribs, vs_attrib) =>
    let name := attribName i
    attribLoop rest
      (attribs ++ [PlotAttrib.mk name i],
       vs_attrib ++ ("attribute float ".toList ++ name ++ ";\n".toList))

/-- The channel set `as` of `CreatePlot(x, y, ..)`. -/
def channelSet (x y : List Char) : List Int :=
  let ax := ConvertSequences x '$' 'i'
  let ay := ConvertSequences y '$' 'i'
  setInsertRange ay (setInsertRange ax [])

/-- The vertex shader source that `CreatePlot(x, y, ..)` hands to `AddShader`. -/
def vertexSource (x y : List Char) : List Char :=
  (attribLoop (channelSet x y) ([], [])).2 ++
  vs_header ++
  "float x = ".toList ++ ReplaceChar x '$' 's' ++ ";\n".toList ++
  "float y = ".toList ++ ReplaceChar y '$' 's' ++ ";\n".toList ++
  vs_footer

/-- `Plotter::PlotSeries::CreatePlot(x, y, colour, title)` on the series `ps`:
`attribs.clear()`, the colour and title, the channel set `as` and `contains_id`, the loop
that pushes the attributes, and the two `AddShader` calls. The lookup of the attribute
locations in the linked program is not modelled. -/
def PlotSeries.CreatePlot (ps : PlotSeries) (x y : List Char) (colour : Colour)
    (title : List Char) : PlotSeries :=
  let ps1 := { ps with attribs := [] }
  let ps2 := { ps1 with colour := colour, title := title }
  let as := channelSet x y
  let ps3 := { ps2 with contains_id := decide ((-1 : Int) ∈ as) }
  let ps4 := { ps3 with attribs := (attribLoop as (ps3.attribs, [])).1 }
  { ps4 with
    prog := ps4.prog ++ [(GlSlShaderType.GlSlVertexShader, vertexSource x y),
                         (GlSlShaderType.GlSlFragmentShader, fs)] }

/-! ## The viewport controller of `Plotter` -/

/-- The pixel rectangle `v` of the view: left, bottom, width, height. -/
structure Viewport where
  l : Int
  b : Int
  w : Int
  h : Int
  deriving DecidableEq

/-- The constants of the Pangolin headers that the input handlers compare against. Their
values are not fixed by `plotter.cpp`; the handlers are modelled for arbitrary values. -/
structure InputConstants where
  MouseButtonLeft : Int
  MouseButtonMiddle : Int
  MouseButtonRight : Int
  MouseWheelUp : Int
  MouseWheelDown : Int
  InputSpecialScroll : Int
  InputSpecialZoom : Int
  KeyModifierCmd : Int
  PANGO_SPECIAL : Int
  PANGO_KEY_LEFT : Int
  PANGO_KEY_RIGHT : Int
  PANGO_KEY_UP : Int
  PANGO_KEY_DOWN : Int

/-- The viewport state of a `Plotter`. A `float[2]` member is a pair: `.1` is element
`[0]` and `.2` is element `[1]`. -/
structure Plotter where
  v : Viewport
  int_x : ℚ × ℚ
  int_y : ℚ × ℚ
  target_x : ℚ × ℚ
  target_y : ℚ × ℚ
  sel_x : ℚ × ℚ
  sel_y : ℚ × ℚ
  hover : ℚ × ℚ
  last_mouse_pos : Int × Int
  track_front : Bool
  deriving DecidableEq

/-- The conversion of a `float` argument to an `int` parameter: truncation towards
zero. It is the conversion of the source for values within the range of `int`; beyond
that range the C++ conversion is undefined, and the value here is not the code's. Only
`hover` depends on it. -/
def floatToInt (q : ℚ) : Int := Int.tdiv q.num q.den

/-- `Plotter::SetViewPan`. -/
def Plotter.SetViewPan (p : Plotter) (left right bottom top : ℚ) : Plotter :=
  { p with target_x := (left, right), target_y := (bottom, top) }

/-- `Plotter::SetView`. -/
def Plotter.SetView (p : Plotter) (left right bottom top : ℚ) : Plotter :=
  { p.SetViewPan left right bottom top with int_x := (left, right), int_y := (bottom, top) }

/-- `Plotter::FixSelection`. -/
def Plotter.FixSelection (p : Plotter) : Plotter :=
  let p1 :=
    if decide (p.sel_x.1 < p.sel_x.2) != decide (p.int_x.1 < p.int_x.2) then
      { p with sel_x := (p.sel_x.2, p.sel_x.1) }
    else p
  if decide (p1.sel_y.1 < p1.sel_y.2) != decide (p1.int_y.1 < p1.int_y.2) then
    { p1 with sel_y := (p1.sel_y.2, p1.sel_y.1) }
  else p1

/-- `Plotter::UpdateView`. -/
def Plotter.UpdateView (p : Plotter) : Plotter :=
  let sf : ℚ := 1 / 20
  let dx : ℚ × ℚ := (p.target_x.1 - p.int_x.1, p.target_x.2 - p.int_x.2)
  let dy : ℚ × ℚ := (p.target_y.1 - p.int_y.1, p.target_y.2 - p.int_y.2)
  { p with
    int_x := (p.int_x.1 + sf * dx.1, p.int_x.2 + sf * dx.2)
    int_y := (p.int_y.1 + sf * dy.1, p.int_y.2 + sf * dy.2) }

/-- `Plotter::ScrollView`. -/
def Plotter.ScrollView (p : Plotter) (x y : ℚ) : Plotter :=
  { p with
    int_x := (p.int_x.1 + x, p.int_x.2 + x)
    int_y := (p.int_y.1 + y, p.int_y.2 + y)
    target_x := (p.target_x.1 + x, p.target_x.2 + x)
    target_y := (p.target_y.1 + y, p.target_y.2 + y) }

/-- `Plotter::ScaleView`. -/
def Plotter.ScaleView (p : Plotter) (x y : ℚ) : Plotter :=
  let c : ℚ × ℚ :=
    (if p.track_front then p.int_x.2 else (p.int_x.1 + p.int_x.2) / 2,
     (p.int_y.1 + p.int_y.2) / 2)
  { p with
    int_x := (x * (p.int_x.1 - c.1) + c.1, x * (p.int_x.2 - c.1) + c.1)
    int_y := (y * (p.int_y.1 - c.2) + c.2, y * (p.int_y.2 - c.2) + c.2)
    target_x := (x * (p.target_x.1 - c.1) + c.1, x * (p.target_x.2 - c.1) + c.1)
    target_y := (y * (p.target_y.1 - c.2) + c.2, y * (p.target_y.2 - c.2) + c.2) }

/-- `Plotter::Keyboard`; `key` is the `unsigned char` key code and `' '` is 32. The
pixel arguments `x`, `y` are not read. -/
def Plotter.Keyboard (K : InputConstants) (p : Plotter) (key : Nat) (pressed : Bool) :
    Plotter :=
  let mvfactor : ℚ := 1 / 10
  if pressed then
    if key = 32 ∧ p.sel_x.1 ≠ p.sel_x.2 ∧ p.sel_y.1 ≠ p.sel_y.2 then
      let p1 := p.SetViewPan p.sel_x.1 p.sel_x.2 p.sel_y.1 p.sel_y.2
      { p1 with sel_x := (p1.sel_x.1, p1.sel_x.1), sel_y := (p1.sel_y.1, p1.sel_y.1) }
    else if (key : Int) = K.PANGO_SPECIAL + K.PANGO_KEY_LEFT then
      let w := p.int_x.2 - p.int_x.1
      let dx := mvfactor * w
      { p with target_x := (p.target_x.1 - dx, p.target_x.2 - dx) }
    else if (key : Int) = K.PANGO_SPECIAL + K.PANGO_KEY_RIGHT then
      let w := p.target_x.2 - p.target_x.1
      let dx := mvfactor * w
      { p with target_x := (p.target_x.1 + dx, p.target_x.2 + dx) }
    else if (key : Int) = K.PANGO_SPECIAL + K.PANGO_KEY_UP then
      let h := p.target_y.2 - p.target_y.1
      let dy := mvfactor * h
      { p with target_y := (p.target_y.1 + dy, p.target_y.2 + dy) }
    else if (key : Int) = K.PANGO_SPECIAL + K.PANGO_KEY_DOWN then
      let h := p.target_y.2 - p.target_y.1
      let dy := mvfactor * h
      { p with target_y := (p.target_y.1 - dy, p.target_y.2 - dy) }
    else p
  else p

/-- `Plotter::ScreenToPlot`: the pair `(xplot, yplot)` written through the two reference
parameters. It is the result of the source for `v.w ≠ 0` and `v.h ≠ 0`; at zero width or
height the source's float division gives NaN or an infinity, which a rational does not
represent, and the value here is not the code's: statements about it assume a viewport of
non-zero width and height. -/
def Plotter.ScreenToPlot (p : Plotter) (xpix ypix : Int) : ℚ × ℚ :=
  (p.int_x.1 + (p.int_x.2 - p.int_x.1) * ((xpix - p.v.l : Int) : ℚ) / (p.v.w : ℚ),
   p.int_y.1 + (p.int_y.2 - p.int_y.1) * ((ypix - p.v.b : Int) : ℚ) / (p.v.h : ℚ))

/-- `Plotter::Special`. The `float` arguments `x`, `y` are converted to `int` where they
are passed on to `ScreenToPlot`; `p3` and `p4` are not read. As for `ScreenToPlot`, the
divisions by `v.w` and `v.h` are those of the source for a viewport of non-zero width and
height only. -/
def Plotter.Special (K : InputConstants) (p : Plotter) (inType : Int) (x y p1 p2 : ℚ)
    (button_state : Int) : Plotter :=
  let q :=
    if inType = K.InputSpecialScroll then
      let d : ℚ × ℚ := (p1, -p2)
      let is : ℚ × ℚ := (p.int_x.2 - p.int_x.1, p.int_y.2 - p.int_y.1)
      let df : ℚ × ℚ := (is.1 * d.1 / (p.v.w : ℚ), is.2 * d.2 / (p.v.h : ℚ))
      let p' := p.ScrollView (-df.1) (-df.2)
      if df.1 > 0 then { p' with track_front := false } else p'
    else if inType = K.InputSpecialZoom then
      let scale : ℚ × ℚ :=
        if Int.land button_state K.KeyModifierCmd ≠ 0 then (1, 1 - p1) else (1 - p1, 1)
      p.ScaleView scale.1 scale.2
    else p
  { q with hover := q.ScreenToPlot (floatToInt x) (floatToInt y) }

/-- `Plotter::Mouse`. The literal `0.1` is the rational 1/10. -/
def Plotter.Mouse (K : InputConstants) (p : Plotter) (button : Int) (x y : Int)
    (pressed : Bool) (button_state : Int) : Plotter :=
  let p0 := { p with last_mouse_pos := (x, y) }
  let p1 :=
    if button = K.MouseButtonLeft then
      let pa :=
        if pressed then
          { p0 with sel_x := ((p0.ScreenToPlot x y).1, p0.sel_x.2)
                    sel_y := ((p0.ScreenToPlot x y).2, p0.sel_y.2) }
        else p0
      { pa with sel_x := (pa.sel_x.1, (pa.ScreenToPlot x y).1)
                sel_y := (pa.sel_y.1, (pa.ScreenToPlot x y).2) }
    else if button = K.MouseWheelUp ∨ button = K.MouseWheelDown then
      p0.Special K K.InputSpecialZoom x y
        (if button = K.MouseWheelDown then 1 / 10 else -(1 / 10)) 0 button_state
    else p0
  p1.FixSelection

/-- `Plotter::MouseMotion`. -/
def Plotter.MouseMotion (K : InputConstants) (p : Plotter) (x y : Int)
    (button_state : Int) : Plotter :=
  let d : Int × Int := (x - p.last_mouse_pos.1, y - p.last_mouse_pos.2)
  let is : ℚ × ℚ := (p.int_x.2 - p.int_x.1, p.int_y.2 - p.int_y.1)
  let df : ℚ × ℚ := (is.1 * (d.1 : ℚ) / (p.v.w : ℚ), is.2 * (d.2 : ℚ) / (p.v.h : ℚ))
  let p1 :=
    if button_state = K.MouseButtonLeft then
      { p with sel_x := (p.sel_x.1, (p.ScreenToPlot x y).1)
               sel_y := (p.sel_y.1, (p.ScreenToPlot x y).2) }
    else if button_state = K.MouseButtonMiddle then
      p.Special K K.InputSpecialScroll df.1 df.2 0 0 button_state
    else if button_state = K.MouseButtonRight then
      p.ScaleView (1 + (d.1 : ℚ) / (p.v.w : ℚ)) (1 - (d.2 : ℚ) / (p.v.h : ℚ))
    else p
  { p1 with hover := p1.ScreenToPlot x y, last_mouse_pos := (x, y) }

/-- `Plotter::PassiveMouseMotion`. -/
def Plotter.PassiveMouseMotion (p : Plotter) (x y : Int) : Plotter :=
  { p with hover := p.ScreenToPlot x y }

/-! ## The series pass of `Plotter::Render` -/

/-- Modelled from the spec: a block of the data log (`DataLogBlock`, which `plotter.cpp`
only uses through its accessors): a row-major buffer of samples with a known channel
count `dim` (`Dimensions()`), a capacity `max_samples` (`MaxSamples()`), a count of valid
samples `samples` (`Samples()`) and a starting global sample index `start_id`
(`StartId()`). The link `NextBlock()` is the order of the list that holds the blocks. -/
structure DataLogBlock where
  dim : Nat
  max_samples : Nat
  samples : Nat
  start_id : Nat
  sample_buffer : List ℚ
  deriving DecidableEq

/-- Modelled from the spec: `DimData(d)`, the column pointer of channel `d`: the buffer
from offset `d` on, in which consecutive samples are one row (`dim` floats) apart. -/
def DataLogBlock.DimData (block : DataLogBlock) (d : Nat) : List ℚ :=
  block.sample_buffer.drop d

/-- The function-local statics of `Render`: `id_start`, `id_size` and the array
`id_array` of floats. An entry of the array is `none` while it is not initialised. -/
structure IdScratch where
  id_start : Int
  id_size : Nat
  id_array : List (Option ℚ)
  deriving DecidableEq

/-- The initial value of the statics: `id_start = 0`, `id_size = 0`, `id_array = 0`. -/
def IdScratch.initial : IdScratch :=
  { id_start := 0, id_size := 0, id_array := [] }

/-- A `glDrawArrays` call of the series pass: the index and state of the series, the
block, the vertex count, and the content that the shared index array has when the call is
made. -/
structure DrawCall where
  index : Nat
  ps : PlotSeries
  block : DataLogBlock
  count : Nat
  id_array : List (Option ℚ)
  deriving DecidableEq

/-- The number of halvings that bring `m` below `2^24`: the binary exponent of the
spacing of the floats around `m`. The first argument bounds the number of steps. -/
def floatExp : Nat → Nat → Nat
  | 0, _ => 0
  | fuel + 1, m => if m < 16777216 then 0 else 1 + floatExp fuel (m / 2)

/-- The conversion of a `size_t` value to `float` (24 bits of significand, rounding to
nearest, ties to even), as the natural number that the resulting float is: values up to
`2^24` are kept, above that the value is rounded to a multiple of `2^e`, the spacing of
the floats around it. Values of `size_t` are far below the largest float. -/
def floatOfNat (n : Nat) : Nat :=
  if n ≤ 16777216 then n
  else
    let e := floatExp n n
    let q := n / 2 ^ e
    let r := n % 2 ^ e
    let half := 2 ^ (e - 1)
    if r < half then q * 2 ^ e
    else if half < r then (q + 1) * 2 ^ e
    else if q % 2 = 0 then q * 2 ^ e
    else (q + 1) * 2 ^ e

/-- The part of the block loop under `if(ps.contains_id)`: the array is allocated anew
when it is smaller than the block, and filled with `StartId() + k`, converted to `float`,
when `id_start` differs from `StartId()`. -/
def updateIdArray (st : IdScratch) (block : DataLogBlock) : IdScratch :=
  let st1 :=
    if st.id_size < block.samples then
      { id_start := -1, id_size := block.max_samples,
        id_array := List.replicate block.max_samples none }
    else st
  if st1.id_start ≠ (block.start_id : Int) then
    { st1 with
      id_array := (List.range st1.id_size).foldl
        (fun arr k => arr.set k (some ((floatOfNat (block.start_id + k) : Nat) : ℚ)))
        st1.id_array }
  else st1

/-- The loop of `Render` over `ps.attribs` that enables the attributes of a block: the
value of `shouldRender` after it; a bad id ends the loop. The comparison is with
`(int)block->Dimensions()`, the channel count narrowed to `int`. -/
def shouldRender (block : DataLogBlock) : List PlotAttrib → Bool
  | [] => true
  | a :: rest =>
    if 0 ≤ a.plot_id ∧ a.plot_id < wrapInt (block.dim : Int) then shouldRender block rest
    else if a.plot_id = -1 then shouldRender block rest
    else false

/-- One iteration of `while(block)` for the series with index `i`: the update of the
index array, the attribute loop and the draw call. -/
def blockStep (i : Nat) (acc : PlotSeries × IdScratch × List DrawCall)
    (block : DataLogBlock) : PlotSeries × IdScratch × List DrawCall :=
  let ps := acc.1
  let st := if ps.contains_id then updateIdArray acc.2.1 block else acc.2.1
  if shouldRender block ps.attribs then
    ({ ps with used := true }, st,
      acc.2.2 ++ [{ index := i, ps := ps, block := block, count := block.samples,
                    id_array := st.id_array }])
  else (ps, st, acc.2.2)

/-- The loop `while(block)` of the series with index `i` over the blocks of the log. -/
def blockLoop (i : Nat) (log : List DataLogBlock)
    (acc : PlotSeries × IdScratch × List DrawCall) : PlotSeries × IdScratch × List DrawCall :=
  log.foldl (blockStep i) acc

/-- The loop of `Render` over `plotseries` from index `i` on: `used` is cleared, then the
blocks of the log are visited. -/
def seriesLoop (log : List DataLogBlock) :
    Nat → List PlotSeries → IdScratch × List DrawCall →
      List PlotSeries × IdScratch × List DrawCall
  | _, [], acc => ([], acc.1, acc.2)
  | i, ps :: rest, acc =>
    let r := blockLoop i log ({ ps with used := false }, acc.1, acc.2)
    let r' := seriesLoop log (i + 1) rest (r.2.1, r.2.2)
    (r.1 :: r'.1, r'.2.1, r'.2.2)

/-- The section "Draw series" of `Plotter::Render`: the series afterwards, the statics
afterwards, and the draw calls made, in order. -/
def RenderSeries (plotseries : List PlotSeries) (log : List DataLogBlock) (st : IdScratch) :
    List PlotSeries × IdScratch × List DrawCall :=
  seriesLoop log 0 plotseries (st, [])

/-- Consecutive frames: each frame runs the series pass on its own series and blocks, the
statics carry over; the result is the statics and all draw calls made. -/
def renderFrames :
    List (List PlotSeries × List DataLogBlock) → IdScratch × List DrawCall →
      IdScratch × List DrawCall
  | [], acc => acc
  | frame :: rest, acc =>
    let r := RenderSeries frame.1 frame.2 acc.1
    renderFrames rest (r.2.1, acc.2 ++ r.2.2)

/-- The value that the GL reads for the attribute `a` at vertex `k` of a draw call, from
the pointers that `Render` passes to `glVertexAttribPointer`: the column of the channel
with a stride of one row, or the index array, tightly packed. -/
def DrawCall.attribValue (d : DrawCall) (a : PlotAttrib) (k : Nat) : Option ℚ :=
  if 0 ≤ a.plot_id ∧ a.plot_id < wrapInt (d.block.dim : Int) then
    (d.block.DimData a.plot_id.toNat)[k * d.block.dim]?
  else if a.plot_id = -1 then (d.id_array[k]?).join
  else none

/-! ## Specification-side vocabulary -/

/-- The channel reference that `ConvertSequences` inserts for a sigil whose following
text is `rest`. -/
def placeholderRef (id_char : Char) (rest : List Char) : Int :=
  if rest.head? = some id_char then -1 else digitLoop 0 rest

/-- The number written by the digits at the front of a text, as an unbounded natural
number, continuing from `v`. -/
def digitRunValue (v : Nat) : List Char → Nat
  | [] => v
  | c :: cs => if c.isDigit then digitRunValue (v * 10 + (c.toNat - 48)) cs else v

/-- Every number that follows a sigil `'$'` in `s` is below `2^31`, so that the `int`
accumulation of `ConvertSequences` does not overflow. -/
def NoIntOverflow (s : List Char) : Prop :=
  ∀ k, s[k]? = some '$' → digitRunValue 0 (s.drop (k + 1)) < 2147483648

/-- The text contains `a` immediately followed by `b`. -/
def ContainsAdjacent (a b : Char) (s : List Char) : Prop :=
  ∃ k, s[k]? = some a ∧ s[k + 1]? = some b

instance NoIntOverflow.decidable (s : List Char) : Decidable (NoIntOverflow s) :=
  decidable_of_iff
    (∀ k, k < s.length → s[k]? = some '$' →
      digitRunValue 0 (s.drop (k + 1)) < 2147483648)
    ⟨fun h k hk =>
      h k (by
        by_contra hge
        rw [List.getElem?_eq_none (by omega)] at hk
        exact absurd hk (by simp)) hk,
     fun h k _ hk => h k hk⟩

instance ContainsAdjacent.decidable (a b : Char) (s : List Char) :
    Decidable (ContainsAdjacent a b s) :=
  decidable_of_iff
    (∃ k, k < s.length ∧ (s[k]? = some a ∧ s[k + 1]? = some b))
    ⟨fun ⟨k, _, hk⟩ => ⟨k, hk⟩,
     fun ⟨k, hk, hk'⟩ =>
      ⟨k, by
        by_contra hge
        rw [List.getElem?_eq_none (by omega)] at hk
        exact absurd hk (by simp), hk, hk'⟩⟩

/-- The expression `"$n1+$n2+...+$nk"`: each index in decimal, joined by `'+'`. -/
def sumExpr (ns : List Nat) : List Char :=
  List.intercalate ['+'] (ns.map (fun n => '$' :: Nat.toDigits 10 n))

/-- One step of the decimal accumulation, without overflow. -/
def decStep (v : Nat) (c : Char) : Nat := v * 10 + (c.toNat - 48)

/-- What follows the first placeholder of `sumExpr (n :: ns)`. -/
def sumTail (ns : List Nat) : List Char :=
  match ns with
  | [] => []
  | _ :: _ => '+' :: sumExpr ns

/-- An empty series, before any `CreatePlot`. -/
def emptySeries : PlotSeries :=
  { prog := [], attribs := [], colour := ⟨0, 0, 0, 0⟩, title := [], contains_id := false,
    used := false }

/-- The identifier that `ReplaceChar(e, '$', 's')` leaves at position `k` of the rewritten
text: the character at `k`, followed by the next character when the original has the
reserved letter `'i'` there, and by the run of digits otherwise. -/
def placeholderIdent (e : List Char) (k : Nat) : List Char :=
  let r := ReplaceChar e '$' 's'
  (r.drop k).take 1 ++
    (if e[k + 1]? = some 'i' then (r.drop (k + 1)).take 1
     else (r.drop (k + 1)).takeWhile Char.isDigit)

/-- The declarations `"attribute float <name>;\n"` that `CreatePlot(x, y, ..)` writes,
one for each channel reference. -/
def attribDeclarations (x y : List Char) : List (List Char) :=
  (channelSet x y).map (fun i => "attribute float ".toList ++ attribName i ++ ";\n".toList)

/-- The sign of a rational, in `{-1, 0, +1}`. -/
def signOf (q : ℚ) : Int := if 0 < q then 1 else if q < 0 then -1 else 0

/-- The sign convention of the selection in its weak form: on each axis the selection is
not ordered against the current view. -/
def WeakSelectionSign (p : Plotter) : Prop :=
  (p.int_x.1 < p.int_x.2 → p.sel_x.1 ≤ p.sel_x.2) ∧
  (¬ p.int_x.1 < p.int_x.2 → p.sel_x.2 ≤ p.sel_x.1) ∧
  (p.int_y.1 < p.int_y.2 → p.sel_y.1 ≤ p.sel_y.2) ∧
  (¬ p.int_y.1 < p.int_y.2 → p.sel_y.2 ≤ p.sel_y.1)

/-- The sign convention of the selection as the specification words it: `left < right`
iff `sel[0] < sel[1]`, on both axes. -/
def SelectionSignConvention (p : Plotter) : Prop :=
  (p.int_x.1 < p.int_x.2 ↔ p.sel_x.1 < p.sel_x.2) ∧
  (p.int_y.1 < p.int_y.2 ↔ p.sel_y.1 < p.sel_y.2)

instance WeakSelectionSign.decidable (p : Plotter) : Decidable (WeakSelectionSign p) := by
  unfold WeakSelectionSign; infer_instance

instance SelectionSignConvention.decidable (p : Plotter) :
    Decidable (SelectionSignConvention p) := by
  unfold SelectionSignConvention; infer_instance

/-- The four current bounds `int_x[0]`, `int_x[1]`, `int_y[0]`, `int_y[1]`. -/
def currentBound (p : Plotter) (i : Fin 4) : ℚ :=
  match i with
  | 0 => p.int_x.1
  | 1 => p.int_x.2
  | 2 => p.int_y.1
  | 3 => p.int_y.2

/-- The four target bounds `target_x[0]`, `target_x[1]`, `target_y[0]`, `target_y[1]`. -/
def targetBound (p : Plotter) (i : Fin 4) : ℚ :=
  match i with
  | 0 => p.target_x.1
  | 1 => p.target_x.2
  | 2 => p.target_y.1
  | 3 => p.target_y.2

/-- The horizontal pivot of a zoom: the right edge of the current view when
`track_front` is set, its midpoint otherwise. -/
def pivotX (p : Plotter) : ℚ :=
  if p.track_front then p.int_x.2 else (p.int_x.1 + p.int_x.2) / 2

/-- The vertical pivot of a zoom: the midpoint of the current view. -/
def pivotY (p : Plotter) : ℚ := (p.int_y.1 + p.int_y.2) / 2

/-- A plotter state with view and target `(0,10)x(0,10)`, a viewport of 100 by 100 pixels
at the origin, and the selection `(2,5)x(2,5)`. -/
def samplePlotter : Plotter :=
  { v := ⟨0, 0, 100, 100⟩
    int_x := (0, 10), int_y := (0, 10)
    target_x := (0, 10), target_y := (0, 10)
    sel_x := (2, 5), sel_y := (2, 5)
    hover := (0, 0)
    last_mouse_pos := (0, 0)
    track_front := false }

/-- A choice of values for the constants of the input handlers. -/
def sampleConstants : InputConstants :=
  { MouseButtonLeft := 1, MouseButtonMiddle := 2, MouseButtonRight := 4
    MouseWheelUp := 8, MouseWheelDown := 16
    InputSpecialScroll := 0, InputSpecialZoom := 1
    KeyModifierCmd := 524288
    PANGO_SPECIAL := 128
    PANGO_KEY_LEFT := 100, PANGO_KEY_UP := 101, PANGO_KEY_RIGHT := 102, PANGO_KEY_DOWN := 103 }

/-- A block is drawn for an attribute table: every channel reference is the synthetic
index or a channel of the block. -/
def Renderable (attribs : List PlotAttrib) (block : DataLogBlock) : Prop :=
  ∀ a ∈ attribs, a.plot_id = -1 ∨ (0 ≤ a.plot_id ∧ a.plot_id < (block.dim : Int))

instance Renderable.decidable (attribs : List PlotAttrib) (block : DataLogBlock) :
    Decidable (Renderable attribs block) := by
  unfold Renderable; infer_instance

/-- The condition under which the attribute loop of `Render` leaves `shouldRender` set:
as `Renderable`, with the channel count narrowed to `int` as in the source. -/
def RenderableInt (attribs : List PlotAttrib) (block : DataLogBlock) : Prop :=
  ∀ a ∈ attribs, a.plot_id = -1 ∨ (0 ≤ a.plot_id ∧ a.plot_id < wrapInt (block.dim : Int))

instance RenderableInt.decidable (attribs : List PlotAttrib) (block : DataLogBlock) :
    Decidable (RenderableInt attribs block) := by
  unfold RenderableInt; infer_instance

/-- A block of `2^31` channels that holds no sample yet. -/
def wideBlock : DataLogBlock :=
  { dim := 2147483648, max_samples := 0, samples := 0, start_id := 0, sample_buffer := [] }

/-- The shared index array of a draw call holds the global positions of the samples of
the block: at least `Samples()` entries, entry `k` being `StartId() + k`. -/
def DrawCall.IndexArrayOk (d : DrawCall) : Prop :=
  d.block.samples ≤ d.id_array.length ∧
  ∀ k, k < d.block.samples → d.id_array[k]? = some (some ((d.block.start_id + k : Nat) : ℚ))

/-- Every draw call made for a series with `contains_id` set has a good index array. -/
def DrawsOk (draws : List DrawCall) : Prop :=
  ∀ d ∈ draws, d.ps.contains_id = true → d.IndexArrayOk

/-- The statics of `Render` are consistent: the array has `id_size` entries, and
`id_start` is `-1` once the array has been allocated. -/
def IdScratch.Consistent (st : IdScratch) : Prop :=
  st.id_array.length = st.id_size ∧ (st.id_start = -1 ∨ st.id_size = 0)

/-- The series `x = "$i"`, `y = "$3"`, which references channel 3. -/
def sampleSeries3 : PlotSeries :=
  emptySeries.CreatePlot "$i".toList "$3".toList ⟨1, 0, 0, 1⟩ []

/-- A block with 2 channels and one sample. -/
def sampleBlock2 : DataLogBlock :=
  { dim := 2, max_samples := 4, samples := 1, start_id := 0, sample_buffer := [1, 2] }

/-- A block with 4 channels and one sample, which follows `sampleBlock2`. -/
def sampleBlock4 : DataLogBlock :=
  { dim := 4, max_samples := 4, samples := 1, start_id := 1, sample_buffer := [1, 2, 3, 4] }

/-- The series `x = "$i"`, `y = "$0"`. -/
def sampleSeries0 : PlotSeries :=
  emptySeries.CreatePlot "$i".toList "$0".toList ⟨1, 0, 0, 1⟩ []

/-- One block with `StartId` 0 and the 3 samples `[0.1, -0.2, 0.3]` in its only channel. -/
def sampleBlock1 : DataLogBlock :=
  { dim := 1, max_samples := 3, samples := 3, start_id := 0,
    sample_buffer := [1 / 10, -(1 / 5), 3 / 10] }

/-- One block of 2 samples that starts at the global position `2^24`. -/
def lateBlock : DataLogBlock :=
  { dim := 1, max_samples := 2, samples := 2, start_id := 16777216,
    sample_buffer := [1 / 10, -(1 / 5)] }

/-- The state `samplePlotter` while its view `(0,10)x(0,10)` is still easing towards the
target `(0,20)x(0,40)`. -/
def easingPlotter : Plotter :=
  { samplePlotter with target_x := (0, 20), target_y := (0, 40) }

/-! ## Lemmas: the ordered set -/

theorem mem_setInsert (v w : Int) (l : List Int) :
    w ∈ setInsert v l ↔ w = v ∨ w ∈ l := by
  induction l with
  | nil => simp [setInsert]
  | cons a as ih =>
    unfold setInsert
    split_ifs with h1 h2
    · simp
    · subst h2; simp
    · simp only [List.mem_cons, ih]; tauto

theorem setInsert_pairwise (v : Int) (l : List Int) (h : l.Pairwise (· < ·)) :
    (setInsert v l).Pairwise (· < ·) := by
  induction l with
  | nil => simp [setInsert]
  | cons a as ih =>
    unfold setInsert
    split_ifs with h1 h2
    · refine List.Pairwise.cons ?_ h
      intro b hb
      rcases List.mem_cons.1 hb with rfl | hb
      · exact h1
      · exact lt_trans h1 (List.rel_of_pairwise_cons h hb)
    · exact h
    · refine List.Pairwise.cons ?_ (ih (List.Pairwise.of_cons h))
      intro b hb
      rcases (mem_setInsert v b as).1 hb with rfl | hb
      · omega
      · exact List.rel_of_pairwise_cons h hb

theorem mem_setInsertRange (w : Int) (src dst : List Int) :
    w ∈ setInsertRange src dst ↔ w ∈ src ∨ w ∈ dst := by
  unfold setInsertRange
  induction src generalizing dst with
  | nil => simp
  | cons a as ih => simp only [List.foldl_cons, ih, mem_setInsert, List.mem_cons]; tauto

theorem setInsertRange_pairwise (src dst : List Int) (h : dst.Pairwise (· < ·)) :
    (setInsertRange src dst).Pairwise (· < ·) := by
  unfold setInsertRange
  induction src generalizing dst with
  | nil => simpa using h
  | cons a as ih => exact ih _ (setInsert_pairwise a dst h)

/-- Two ascending lists with the same elements are the same list. -/
theorem ascending_ext (l₁ l₂ : List Int) (h₁ : l₁.Pairwise (· < ·))
    (h₂ : l₂.Pairwise (· < ·)) (h : ∀ v, v ∈ l₁ ↔ v ∈ l₂) : l₁ = l₂ := by
  have n₁ : l₁.Nodup := h₁.imp (fun hab => ne_of_lt hab)
  have n₂ : l₂.Nodup := h₂.imp (fun hab => ne_of_lt hab)
  exact List.eq_of_perm_of_sorted ((List.perm_ext_iff_of_nodup n₁ n₂).2 h) h₁ h₂

/-! ## Lemmas: `ConvertSequences` -/

theorem mem_ConvertSequencesLoop (seq_char id_char : Char) (w : Int) (s : List Char)
    (acc : List Int) :
    w ∈ ConvertSequencesLoop seq_char id_char s acc ↔
      w ∈ acc ∨ ∃ k, s[k]? = some seq_char ∧ w = placeholderRef id_char (s.drop (k + 1)) := by
  induction s generalizing acc with
  | nil => simp [ConvertSequencesLoop]
  | cons c rest ih =>
    have hsplit : (∃ k, (c :: rest)[k]? = some seq_char ∧
          w = placeholderRef id_char ((c :: rest).drop (k + 1))) ↔
        ((c = seq_char ∧ w = placeholderRef id_char rest) ∨
          ∃ k, rest[k]? = some seq_char ∧ w = placeholderRef id_char (rest.drop (k + 1))) := by
      constructor
      · rintro ⟨k, hk, hw⟩
        cases k with
        | zero => left; simpa using And.intro hk hw
        | succ k => right; exact ⟨k, by simpa using hk, by simpa using hw⟩
      · rintro (⟨hc, hw⟩ | ⟨k, hk, hw⟩)
        · exact ⟨0, by simpa using hc, by simpa using hw⟩
        · exact ⟨k + 1, by simpa using hk, by simpa using hw⟩
    rw [hsplit]
    unfold ConvertSequencesLoop
    split_ifs with h1 h2
    · rw [ih, mem_setInsert]; simp only [placeholderRef, h2, if_true, h1, true_and]; tauto
    · rw [ih, mem_setInsert]; simp only [placeholderRef, h2, if_false, h1, true_and]; tauto
    · rw [ih]; simp only [h1, false_and, false_or]

theorem ConvertSequencesLoop_pairwise (seq_char id_char : Char) (s : List Char)
    (acc : List Int) (h : acc.Pairwise (· < ·)) :
    (ConvertSequencesLoop seq_char id_char s acc).Pairwise (· < ·) := by
  induction s generalizing acc with
  | nil => simpa [ConvertSequencesLoop] using h
  | cons c rest ih =>
    unfold ConvertSequencesLoop
    split_ifs
    · exact ih _ (setInsert_pairwise _ _ h)
    · exact ih _ (setInsert_pairwise _ _ h)
    · exact ih _ h

theorem mem_ConvertSequences (seq_char id_char : Char) (w : Int) (s : List Char) :
    w ∈ ConvertSequences s seq_char id_char ↔
      ∃ k, s[k]? = some seq_char ∧ w = placeholderRef id_char (s.drop (k + 1)) := by
  simp [ConvertSequences, mem_ConvertSequencesLoop]

theorem ConvertSequences_pairwise (seq_char id_char : Char) (s : List Char) :
    (ConvertSequences s seq_char id_char).Pairwise (· < ·) :=
  ConvertSequencesLoop_pairwise seq_char id_char s [] List.Pairwise.nil

/-! ## Lemmas: decimal digits -/

theorem isDigit_bounds (c : Char) (h : c.isDigit = true) : 48 ≤ c.toNat ∧ c.toNat ≤ 57 := by
  simp only [Char.isDigit, Bool.and_eq_true, decide_eq_true_eq] at h
  exact ⟨h.1, h.2⟩

theorem digitChar_spec (k : Nat) (h : k < 10) :
    (Nat.digitChar k).isDigit = true ∧ (Nat.digitChar k).toNat - 48 = k := by
  interval_cases k <;> decide

theorem toDigitsCore_spec (fuel : Nat) :
    ∀ n, n < fuel → ∃ ds : List Char,
      (∀ acc, Nat.toDigitsCore 10 fuel n acc = ds ++ acc) ∧ ds ≠ [] ∧
      (∀ c ∈ ds, c.isDigit = true) ∧ ds.foldl decStep 0 = n := by
  induction fuel with
  | zero => intro n hn; omega
  | succ f ih =>
    intro n hn
    have hd := digitChar_spec (n % 10) (Nat.mod_lt _ (by norm_num))
    by_cases h0 : n / 10 = 0
    · refine ⟨[Nat.digitChar (n % 10)], ?_, by simp, ?_, ?_⟩
      · intro acc; simp [Nat.toDigitsCore, h0]
      · intro c hc; simp only [List.mem_singleton] at hc; subst hc; exact hd.1
      · simp only [List.foldl_cons, List.foldl_nil, decStep, hd.2]; omega
    · obtain ⟨ds, h1, _, h3, h4⟩ := ih (n / 10) (by omega)
      refine ⟨ds ++ [Nat.digitChar (n % 10)], ?_, by simp, ?_, ?_⟩
      · intro acc; simp [Nat.toDigitsCore, h0, h1]
      · intro c hc
        rcases List.mem_append.1 hc with hc | hc
        · exact h3 c hc
        · simp only [List.mem_singleton] at hc; subst hc; exact hd.1
      · simp only [List.foldl_append, List.foldl_cons, List.foldl_nil, h4, decStep, hd.2]
        omega

theorem toDigits_spec (n : Nat) :
    Nat.toDigits 10 n ≠ [] ∧ (∀ c ∈ Nat.toDigits 10 n, c.isDigit = true) ∧
      (Nat.toDigits 10 n).foldl decStep 0 = n := by
  obtain ⟨ds, h1, h2, h3, h4⟩ := toDigitsCore_spec (n + 1) n (by omega)
  have : Nat.toDigits 10 n = ds := by simpa [Nat.toDigits] using h1 []
  rw [this]; exact ⟨h2, h3, h4⟩

theorem digitRunValue_append (ds rest : List Char) (v : Nat)
    (hds : ∀ c ∈ ds, c.isDigit = true) :
    digitRunValue v (ds ++ rest) = digitRunValue (ds.foldl decStep v) rest := by
  induction ds generalizing v with
  | nil => rfl
  | cons d ds ih =>
    have hd : d.isDigit = true := hds d (by simp)
    simp only [List.cons_append, digitRunValue, hd, if_true, List.foldl_cons]
    exact ih _ (fun c hc => hds c (by simp [hc]))

theorem digitRunValue_stop (rest : List Char) (v : Nat)
    (h : ∀ c, rest.head? = some c → c.isDigit = false) : digitRunValue v rest = v := by
  cases rest with
  | nil => rfl
  | cons c cs => simp [digitRunValue, h c rfl]

theorem le_digitRunValue (cs : List Char) (v : Nat) : v ≤ digitRunValue v cs := by
  induction cs generalizing v with
  | nil => simp [digitRunValue]
  | cons c cs ih =>
    unfold digitRunValue
    split_ifs
    · exact le_trans (by omega) (ih _)
    · exact le_refl v

theorem wrapInt_of_lt (n : Nat) (h : n < 2147483648) : wrapInt (n : Int) = n := by
  unfold wrapInt; omega

theorem digitLoop_eq_digitRunValue (cs : List Char) (v : Nat)
    (h : digitRunValue v cs < 2147483648) : digitLoop (v : Int) cs = digitRunValue v cs := by
  induction cs generalizing v with
  | nil => simp [digitLoop, digitRunValue]
  | cons c cs ih =>
    unfold digitLoop digitRunValue
    unfold digitRunValue at h
    by_cases hc : c.isDigit = true
    · simp only [hc, if_true] at h ⊢
      have hb := isDigit_bounds c hc
      have hle := le_digitRunValue cs (v * 10 + (c.toNat - 48))
      have hcast : ((v : Int) * 10 + ((c.toNat : Int) - 48)) = ((v * 10 + (c.toNat - 48) : Nat) : Int) := by
        omega
      rw [hcast, wrapInt_of_lt _ (by omega)]
      exact ih _ h
    · simp [hc]

/-- The decimal numeral of `n`, followed by text that does not start with a digit, is
read back as `n`. -/
theorem digitRunValue_toDigits (n : Nat) (rest : List Char)
    (h : ∀ c, rest.head? = some c → c.isDigit = false) :
    digitRunValue 0 (Nat.toDigits 10 n ++ rest) = n := by
  obtain ⟨_, h2, h3⟩ := toDigits_spec n
  rw [digitRunValue_append _ _ _ h2, h3, digitRunValue_stop _ _ h]

/-! ## Lemmas: `ConvertSequences` on a sum of channel placeholders -/

theorem ConvertSequencesLoop_skip (seq_char id_char : Char) (ds rest : List Char)
    (acc : List Int) (h : ∀ c ∈ ds, c ≠ seq_char) :
    ConvertSequencesLoop seq_char id_char (ds ++ rest) acc =
      ConvertSequencesLoop seq_char id_char rest acc := by
  induction ds with
  | nil => rfl
  | cons d ds ih =>
    have hd : d ≠ seq_char := h d (by simp)
    simp only [List.cons_append, ConvertSequencesLoop, hd, if_false]
    exact ih (fun c hc => h c (by simp [hc]))

theorem sumExpr_cons (n : Nat) (ns : List Nat) :
    sumExpr (n :: ns) = '$' :: (Nat.toDigits 10 n ++ sumTail ns) := by
  cases ns with
  | nil => simp [sumExpr, sumTail, List.intercalate]
  | cons m ms => simp [sumExpr, sumTail, List.intercalate]

theorem sumTail_head (ns : List Nat) :
    ∀ c, (sumTail ns).head? = some c → c.isDigit = false := by
  intro c hc
  cases ns with
  | nil => simp [sumTail] at hc
  | cons m ms =>
    simp only [sumTail, List.head?_cons, Option.some.injEq] at hc
    subst hc; decide

theorem ConvertSequencesLoop_sumTail (ns : List Nat) (acc : List Int) :
    ConvertSequencesLoop '$' 'i' (sumTail ns) acc =
      ConvertSequencesLoop '$' 'i' (sumExpr ns) acc := by
  cases ns with
  | nil => simp [sumTail, sumExpr, List.intercalate]
  | cons m ms =>
    have h : ('+' : Char) ≠ '$' := by decide
    simp only [sumTail, ConvertSequencesLoop, h, if_false]

theorem ConvertSequencesLoop_sumExpr (ns : List Nat) (acc : List Int)
    (h : ∀ n ∈ ns, n < 2147483648) :
    ConvertSequencesLoop '$' 'i' (sumExpr ns) acc =
      setInsertRange (ns.map (fun n : Nat => (n : Int))) acc := by
  induction ns generalizing acc with
  | nil => simp [sumExpr, List.intercalate, ConvertSequencesLoop, setInsertRange]
  | cons n ns ih =>
    obtain ⟨hne, hdig, _⟩ := toDigits_spec n
    have hn : n < 2147483648 := h n (by simp)
    have hval := digitRunValue_toDigits n (sumTail ns) (sumTail_head ns)
    have hloop : digitLoop 0 (Nat.toDigits 10 n ++ sumTail ns) = (n : Int) := by
      have := digitLoop_eq_digitRunValue (Nat.toDigits 10 n ++ sumTail ns) 0 (by omega)
      simpa [hval] using this
    have hhead : (Nat.toDigits 10 n ++ sumTail ns).head? ≠ some 'i' := by
      cases hds : Nat.toDigits 10 n with
      | nil => exact absurd hds hne
      | cons d ds =>
        have hd : d.isDigit = true := hdig d (by simp [hds])
        simp only [List.cons_append, List.head?_cons, ne_eq, Option.some.injEq]
        rintro rfl
        exact absurd hd (by decide)
    have hskip : ∀ c ∈ Nat.toDigits 10 n, c ≠ '$' := by
      intro c hc hcd
      have := hdig c hc
      rw [hcd] at this
      exact absurd this (by decide)
    rw [sumExpr_cons]
    simp only [ConvertSequencesLoop, if_true, hhead, if_false, hloop]
    rw [ConvertSequencesLoop_skip _ _ _ _ _ hskip, ConvertSequencesLoop_sumTail,
      ih _ (fun m hm => h m (by simp [hm]))]
    simp [setInsertRange]

/-! ## C1 -/

/-- C1: for every list `ns` of non-negative channel indices that are values of the C++
type `int`, `ConvertSequences` applied to `"$n1+$n2+...+$nk"` returns the set of the
elements of `ns`: the result is ascending (so duplicate-free), its members are exactly
the elements of `ns`, and any other list with the same elements, in any order and with
any repetitions, gives the same result. -/
theorem ConvertSequences_sumExpr (ns : List Nat) (h : ∀ n ∈ ns, n < 2147483648) :
    (ConvertSequences (sumExpr ns) '$' 'i').Pairwise (· < ·) ∧
    (∀ v : Int, v ∈ ConvertSequences (sumExpr ns) '$' 'i' ↔ ∃ n : Nat, n ∈ ns ∧ v = (n : Int)) ∧
    (∀ ms : List Nat, (∀ m ∈ ms, m < 2147483648) → (∀ n, n ∈ ms ↔ n ∈ ns) →
      ConvertSequences (sumExpr ms) '$' 'i' = ConvertSequences (sumExpr ns) '$' 'i') := by
  have hmem : ∀ (l : List Nat), (∀ n ∈ l, n < 2147483648) →
      ∀ v : Int, v ∈ ConvertSequences (sumExpr l) '$' 'i' ↔ ∃ n : Nat, n ∈ l ∧ v = (n : Int) := by
    intro l hl v
    unfold ConvertSequences
    rw [ConvertSequencesLoop_sumExpr l [] hl, mem_setInsertRange]
    rw [List.mem_map]
    constructor
    · rintro (⟨n, hn, rfl⟩ | hv)
      · exact ⟨n, hn, rfl⟩
      · exact absurd hv (List.not_mem_nil v)
    · rintro ⟨n, hn, rfl⟩; exact Or.inl ⟨n, hn, rfl⟩
  refine ⟨ConvertSequences_pairwise _ _ _, hmem ns h, ?_⟩
  intro ms hms hsame
  apply ascending_ext _ _ (ConvertSequences_pairwise _ _ _) (ConvertSequences_pairwise _ _ _)
  intro v
  rw [hmem ms hms, hmem ns h]
  constructor
  · rintro ⟨n, hn, rfl⟩; exact ⟨n, (hsame n).1 hn, rfl⟩
  · rintro ⟨n, hn, rfl⟩; exact ⟨n, (hsame n).2 hn, rfl⟩

/-- C1 at `"$2+$1"` and `"$1+$2"`: both give the channel set `{1, 2}`. -/
theorem ConvertSequences_sumExpr_witness :
    sumExpr [2, 1] = "$2+$1".toList ∧ sumExpr [1, 2] = "$1+$2".toList ∧
    ConvertSequences "$2+$1".toList '$' 'i' = [1, 2] ∧
    ConvertSequences (sumExpr [1, 2]) '$' 'i' = ConvertSequences (sumExpr [2, 1]) '$' 'i' :=
  ⟨by decide, by decide, by decide,
    (ConvertSequences_sumExpr [2, 1] (by decide)).2.2 [1, 2] (by decide)
      (by intro n; simp [or_comm])⟩

/-! ## C2 -/

theorem neg_one_mem_ConvertSequences (s : List Char) (h : NoIntOverflow s) :
    (-1 : Int) ∈ ConvertSequences s '$' 'i' ↔ ContainsAdjacent '$' 'i' s := by
  rw [mem_ConvertSequences]
  unfold ContainsAdjacent
  constructor
  · rintro ⟨k, hk, hv⟩
    refine ⟨k, hk, ?_⟩
    unfold placeholderRef at hv
    split_ifs at hv with hi
    · simpa using hi
    · have hd := digitLoop_eq_digitRunValue _ 0 (h k hk)
      simp only [Nat.cast_zero] at hd
      omega
  · rintro ⟨k, hk, hi⟩
    refine ⟨k, hk, ?_⟩
    have : (List.drop (k + 1) s).head? = some 'i' := by simpa using hi
    simp [placeholderRef, this]

theorem contains_id_eq (ps : PlotSeries) (x y : List Char) (colour : Colour)
    (title : List Char) :
    (ps.CreatePlot x y colour title).contains_id = true ↔
      (-1 : Int) ∈ ConvertSequences x '$' 'i' ∨ (-1 : Int) ∈ ConvertSequences y '$' 'i' := by
  simp only [PlotSeries.CreatePlot, channelSet, decide_eq_true_eq, mem_setInsertRange,
    List.not_mem_nil, or_false]
  tauto

/-- C2, as amended: for every pair of expression strings in which no number following a
sigil overflows `int`, `-1` is a member of `ConvertSequences(s)` iff `s` contains `'$'`
immediately followed by `'i'`, and `CreatePlot(x, y, ..)` sets `contains_id` iff `x` or
`y` contains `"$i"`. -/
theorem synthetic_index_detected (ps : PlotSeries) (x y : List Char) (colour : Colour)
    (title : List Char) (hx : NoIntOverflow x) (hy : NoIntOverflow y) :
    ((-1 : Int) ∈ ConvertSequences x '$' 'i' ↔ ∃ k, x[k]? = some '$' ∧ x[k + 1]? = some 'i') ∧
    ((-1 : Int) ∈ ConvertSequences y '$' 'i' ↔ ∃ k, y[k]? = some '$' ∧ y[k + 1]? = some 'i') ∧
    ((ps.CreatePlot x y colour title).contains_id = true ↔
      (∃ k, x[k]? = some '$' ∧ x[k + 1]? = some 'i') ∨
      (∃ k, y[k]? = some '$' ∧ y[k + 1]? = some 'i')) := by
  have h1 := neg_one_mem_ConvertSequences x hx
  have h2 := neg_one_mem_ConvertSequences y hy
  refine ⟨h1, h2, ?_⟩
  rw [contains_id_eq, h1, h2]
  rfl

/-- C2 at `x = "$i"`, `y = "$1"`: the series references the synthetic index because of
`x`, and `"$1"` alone does not. -/
theorem synthetic_index_detected_witness :
    (emptySeries.CreatePlot "$i".toList "$1".toList ⟨1, 0, 0, 1⟩ []).contains_id = true ∧
    (-1 : Int) ∉ ConvertSequences "$1".toList '$' 'i' ∧
    ¬ ∃ k, "$1".toList[k]? = some '$' ∧ "$1".toList[k + 1]? = some 'i' := by
  have h := synthetic_index_detected emptySeries "$i".toList "$1".toList ⟨1, 0, 0, 1⟩ []
    (by decide) (by decide)
  refine ⟨by decide, by decide, ?_⟩
  rw [← h.2.1]
  decide

/-- C2 fails as stated at `"$4294967295"`: the `int` accumulation wraps to `-1`, so the
sentinel is in the channel set and `contains_id` is set although the text has no
`"$i"`. -/
theorem synthetic_index_overflow_counterexample :
    (-1 : Int) ∈ ConvertSequences "$4294967295".toList '$' 'i' ∧
    (emptySeries.CreatePlot "$4294967295".toList [] ⟨1, 0, 0, 1⟩ []).contains_id = true ∧
    ¬ ∃ k, "$4294967295".toList[k]? = some '$' ∧ "$4294967295".toList[k + 1]? = some 'i' := by
  refine ⟨by decide, by decide, ?_⟩
  have : ¬ ContainsAdjacent '$' 'i' "$4294967295".toList := by decide
  exact this

/-! ## C3 -/

theorem attribLoop_eq (as : List Int) (attribs : List PlotAttrib) (vs_attrib : List Char) :
    attribLoop as (attribs, vs_attrib) =
      (attribs ++ as.map (fun i => PlotAttrib.mk (attribName i) i),
       vs_attrib ++ (as.map (fun i =>
         "attribute float ".toList ++ attribName i ++ ";\n".toList)).flatten) := by
  induction as generalizing attribs vs_attrib with
  | nil => simp [attribLoop]
  | cons i rest ih => simp [attribLoop, ih]

theorem CreatePlot_attribs (ps : PlotSeries) (x y : List Char) (colour : Colour)
    (title : List Char) :
    (ps.CreatePlot x y colour title).attribs =
      (channelSet x y).map (fun i => PlotAttrib.mk (attribName i) i) := by
  simp [PlotSeries.CreatePlot, attribLoop_eq]

theorem CreatePlot_plot_ids (ps : PlotSeries) (x y : List Char) (colour : Colour)
    (title : List Char) :
    (ps.CreatePlot x y colour title).attribs.map PlotAttrib.plot_id = channelSet x y := by
  rw [CreatePlot_attribs, List.map_map]
  exact List.map_id _

theorem mem_channelSet (v : Int) (x y : List Char) :
    v ∈ channelSet x y ↔
      v ∈ ConvertSequences x '$' 'i' ∨ v ∈ ConvertSequences y '$' 'i' := by
  simp only [channelSet, mem_setInsertRange, List.not_mem_nil, or_false]
  tauto

theorem channelSet_pairwise (x y : List Char) : (channelSet x y).Pairwise (· < ·) :=
  setInsertRange_pairwise _ _ (setInsertRange_pairwise _ _ List.Pairwise.nil)

theorem channelSet_comm (x y : List Char) : channelSet x y = channelSet y x := by
  apply ascending_ext _ _ (channelSet_pairwise x y) (channelSet_pairwise y x)
  intro v
  rw [mem_channelSet, mem_channelSet]
  tauto

/-- C3: after `CreatePlot(x, y, ..)`, whatever the prior state of the series, the
attribute table lists channel references in strictly ascending order, the entry of the
synthetic index (reference -1) precedes every entry of a numbered channel (reference at
least 0), the references are exactly those of `ConvertSequences(x)` and
`ConvertSequences(y)`, every entry carries the name `CreatePlot` derives from its
reference, and the table is the same for `CreatePlot(y, x, ..)` on any series. -/
theorem CreatePlot_attribs_ascending (ps : PlotSeries) (x y : List Char) (colour : Colour)
    (title : List Char) :
    ((ps.CreatePlot x y colour title).attribs.map PlotAttrib.plot_id).Pairwise (· < ·) ∧
    (∀ v : Int, v ∈ (ps.CreatePlot x y colour title).attribs.map PlotAttrib.plot_id ↔
      v ∈ ConvertSequences x '$' 'i' ∨ v ∈ ConvertSequences y '$' 'i') ∧
    (∀ (i j : Nat) (hi : i < (ps.CreatePlot x y colour title).attribs.length)
       (hj : j < (ps.CreatePlot x y colour title).attribs.length),
      ((ps.CreatePlot x y colour title).attribs.get ⟨i, hi⟩).plot_id = -1 →
      0 ≤ ((ps.CreatePlot x y colour title).attribs.get ⟨j, hj⟩).plot_id → i < j) ∧
    (∀ a ∈ (ps.CreatePlot x y colour title).attribs, a.name = attribName a.plot_id) ∧
    (∀ (ps' : PlotSeries) (colour' : Colour) (title' : List Char),
      (ps'.CreatePlot y x colour' title').attribs = (ps.CreatePlot x y colour title).attribs ∧
      (ps'.CreatePlot x y colour' title').attribs =
        (ps.CreatePlot x y colour title).attribs) := by
  have hsorted : ((ps.CreatePlot x y colour title).attribs.map PlotAttrib.plot_id).Pairwise
      (· < ·) := by
    rw [CreatePlot_plot_ids]; exact channelSet_pairwise x y
  refine ⟨hsorted, ?_, ?_, ?_, ?_⟩
  · intro v; rw [CreatePlot_plot_ids, mem_channelSet]
  · intro i j hi hj h1 h0
    by_contra hij
    have hne : i ≠ j := by
      rintro rfl
      omega
    have hji : j < i := by omega
    have hp := List.pairwise_map.1 hsorted
    have := List.pairwise_iff_get.1 hp ⟨j, hj⟩ ⟨i, hi⟩ hji
    omega
  · intro a ha
    rw [CreatePlot_attribs, List.mem_map] at ha
    obtain ⟨i, _, rfl⟩ := ha
    rfl
  · intro ps' colour' title'
    simp only [CreatePlot_attribs, channelSet_comm y x, and_self]

/-! ## C4 -/

theorem digitRunValue_eq_foldl (l : List Char) (v : Nat) :
    digitRunValue v l = (l.takeWhile Char.isDigit).foldl decStep v := by
  induction l generalizing v with
  | nil => rfl
  | cons c cs ih =>
    by_cases hc : c.isDigit = true
    · simp only [digitRunValue, hc, if_true, List.takeWhile_cons, List.foldl_cons]
      exact ih _
    · simp [digitRunValue, hc, List.takeWhile_cons]

theorem takeWhile_isDigit_ReplaceChar (l : List Char) :
    (ReplaceChar l '$' 's').takeWhile Char.isDigit = l.takeWhile Char.isDigit := by
  induction l with
  | nil => rfl
  | cons c cs ih =>
    unfold ReplaceChar at ih ⊢
    by_cases hc : c = '$'
    · subst hc
      have h1 : Char.isDigit 's' = false := by decide
      have h2 : Char.isDigit '$' = false := by decide
      simp [List.takeWhile_cons, h1, h2]
    · simp only [List.map_cons, hc, if_false, List.takeWhile_cons, ih]

theorem ReplaceChar_drop (l : List Char) (k : Nat) :
    (ReplaceChar l '$' 's').drop k = ReplaceChar (l.drop k) '$' 's' := by
  simp [ReplaceChar, List.map_drop]

theorem drop_eq_cons_of_getElem? (l : List Char) (k : Nat) (c : Char)
    (h : l[k]? = some c) : l.drop k = c :: l.drop (k + 1) := by
  obtain ⟨hk, hc⟩ := List.getElem?_eq_some.1 h
  rw [← hc]
  exact List.drop_eq_getElem_cons hk

theorem attribName_natCast (n : Nat) : attribName (n : Int) = 's' :: Nat.toDigits 10 n := by
  have h1 : (n : Int) ≥ 0 := by omega
  have h2 : ¬ ((n : Int) < 0) := by omega
  simp [attribName, intToString, h1, h2]

/-- The name of the placeholder at position `k` of `e` and the name of the attribute of
its channel reference, when the sigil is followed by `'i'` or by the decimal numeral of
an `int`. -/
theorem placeholderIdent_eq (e : List Char) (k : Nat) (hk : e[k]? = some '$')
    (hform : e[k + 1]? = some 'i' ∨
      ∃ n : Nat, n < 2147483648 ∧ (e.drop (k + 1)).takeWhile Char.isDigit = Nat.toDigits 10 n) :
    placeholderIdent e k = attribName (placeholderRef 'i' (e.drop (k + 1))) := by
  have hfirst : ((ReplaceChar e '$' 's').drop k).take 1 = ['s'] := by
    rw [ReplaceChar_drop, drop_eq_cons_of_getElem? e k '$' hk]
    simp [ReplaceChar]
  have hhead : (e.drop (k + 1)).head? = e[k + 1]? := by simp
  rcases hform with hi | ⟨n, hn, hrun⟩
  · have hsecond : ((ReplaceChar e '$' 's').drop (k + 1)).take 1 = ['i'] := by
      rw [ReplaceChar_drop, drop_eq_cons_of_getElem? e (k + 1) 'i' hi]
      simp [ReplaceChar]
    have href : placeholderRef 'i' (e.drop (k + 1)) = -1 := by
      simp [placeholderRef, hhead, hi]
    rw [href]
    simp only [placeholderIdent, hfirst, hi, if_true, hsecond]
    decide
  · obtain ⟨hne, hdig, hval⟩ := toDigits_spec n
    have hnoti : e[k + 1]? ≠ some 'i' := by
      intro hi
      have hd := drop_eq_cons_of_getElem? e (k + 1) 'i' hi
      rw [hd] at hrun
      have hfalse : Char.isDigit 'i' = false := by decide
      simp only [List.takeWhile_cons, hfalse] at hrun
      exact hne hrun.symm
    have hrv : digitRunValue 0 (e.drop (k + 1)) = n := by
      rw [digitRunValue_eq_foldl, hrun, hval]
    have hloop : digitLoop 0 (e.drop (k + 1)) = (n : Int) := by
      have := digitLoop_eq_digitRunValue (e.drop (k + 1)) 0 (by omega)
      simpa [hrv] using this
    have href : placeholderRef 'i' (e.drop (k + 1)) = (n : Int) := by
      simp [placeholderRef, hhead, hnoti, hloop]
    rw [href, attribName_natCast]
    simp only [placeholderIdent, hfirst, hnoti, if_false]
    rw [ReplaceChar_drop, takeWhile_isDigit_ReplaceChar, hrun]
    rfl

theorem ReplaceChar_infix_vertexSource (x y : List Char) :
    ReplaceChar x '$' 's' <:+: vertexSource x y ∧ ReplaceChar y '$' 's' <:+: vertexSource x y := by
  unfold vertexSource
  constructor
  · exact ⟨(attribLoop (channelSet x y) ([], [])).2 ++ vs_header ++ "float x = ".toList,
      ";\n".toList ++ "float y = ".toList ++ ReplaceChar y '$' 's' ++ ";\n".toList ++ vs_footer,
      by simp [List.append_assoc]⟩
  · exact ⟨(attribLoop (channelSet x y) ([], [])).2 ++ vs_header ++ "float x = ".toList ++
        ReplaceChar x '$' 's' ++ ";\n".toList ++ "float y = ".toList,
      ";\n".toList ++ vs_footer, by simp [List.append_assoc]⟩

/-- C4, as amended: for every expression `e` passed to `CreatePlot` as `x` or `y` and
every occurrence of the sigil in `e` that is followed by the reserved letter `'i'`, or
by a run of digits that is the decimal numeral of an `int` (not empty, no leading zero,
below `2^31`), the identifier that `ReplaceChar(e,'$','s')` leaves at that position is the
name of the attribute that `CreatePlot` declares for the channel reference of that
occurrence, and the rewritten expression is part of the generated vertex source. -/
theorem placeholder_names_declared_attribute (ps : PlotSeries) (x y : List Char)
    (colour : Colour) (title : List Char) (e : List Char) (k : Nat)
    (he : e = x ∨ e = y) (hk : e[k]? = some '$')
    (hform : e[k + 1]? = some 'i' ∨
      ∃ n : Nat, n < 2147483648 ∧ (e.drop (k + 1)).takeWhile Char.isDigit = Nat.toDigits 10 n) :
    placeholderIdent e k = attribName (placeholderRef 'i' (e.drop (k + 1))) ∧
    PlotAttrib.mk (placeholderIdent e k) (placeholderRef 'i' (e.drop (k + 1))) ∈
      (ps.CreatePlot x y colour title).attribs ∧
    ReplaceChar e '$' 's' <:+: vertexSource x y := by
  have hname := placeholderIdent_eq e k hk hform
  have hmemCS : placeholderRef 'i' (e.drop (k + 1)) ∈ ConvertSequences e '$' 'i' :=
    (mem_ConvertSequences '$' 'i' _ e).2 ⟨k, hk, rfl⟩
  have hmem : placeholderRef 'i' (e.drop (k + 1)) ∈ channelSet x y := by
    rw [mem_channelSet]
    rcases he with rfl | rfl
    · exact Or.inl hmemCS
    · exact Or.inr hmemCS
  refine ⟨hname, ?_, ?_⟩
  · rw [CreatePlot_attribs, List.mem_map]
    exact ⟨_, hmem, by rw [hname]⟩
  · rcases he with rfl | rfl
    · exact (ReplaceChar_infix_vertexSource _ y).1
    · exact (ReplaceChar_infix_vertexSource x _).2

/-- C4 at `x = "$i"`, `y = "$12*2.0"`, for the placeholder at position 0 of `y`: the
identifier is `"s12"`, the name of the attribute declared for channel 12. -/
theorem placeholder_names_declared_attribute_witness :
    placeholderIdent "$12*2.0".toList 0 = "s12".toList ∧
    PlotAttrib.mk "s12".toList 12 ∈
      (emptySeries.CreatePlot "$i".toList "$12*2.0".toList ⟨1, 0, 0, 1⟩ []).attribs := by
  have h := placeholder_names_declared_attribute emptySeries "$i".toList "$12*2.0".toList
    ⟨1, 0, 0, 1⟩ [] "$12*2.0".toList 0 (Or.inr rfl) (by decide)
    (Or.inr ⟨12, by decide, by decide⟩)
  have h1 : placeholderIdent "$12*2.0".toList 0 = "s12".toList := by decide
  have h2 : placeholderRef 'i' ("$12*2.0".toList.drop (0 + 1)) = 12 := by decide
  refine ⟨h1, ?_⟩
  have h3 := h.2.1
  rw [h1, h2] at h3
  exact h3

/-- C4 fails as stated at `"$01"` and at a sigil that no digit follows: the rewritten
text has the identifiers `"s01"` and `"s"`, while the attributes declared for the channel
references read there (1 and 0) are named `"s1"` and `"s0"`. -/
theorem placeholder_name_counterexample :
    "$01".toList[0]? = some '$' ∧
    placeholderIdent "$01".toList 0 = "s01".toList ∧
    placeholderRef 'i' ("$01".toList.drop 1) = 1 ∧
    (emptySeries.CreatePlot "$01".toList [] ⟨1, 0, 0, 1⟩ []).attribs =
      [PlotAttrib.mk "s1".toList 1] ∧
    placeholderIdent "$01".toList 0 ≠ attribName (placeholderRef 'i' ("$01".toList.drop 1)) ∧
    placeholderIdent "$+1.0".toList 0 = "s".toList ∧
    (emptySeries.CreatePlot "$+1.0".toList [] ⟨1, 0, 0, 1⟩ []).attribs =
      [PlotAttrib.mk "s0".toList 0] := by
  decide

/-! ## C5 -/

theorem ConvertSequences_ge_neg_one (s : List Char) (h : NoIntOverflow s) (v : Int)
    (hv : v ∈ ConvertSequences s '$' 'i') : -1 ≤ v := by
  obtain ⟨k, hk, rfl⟩ := (mem_ConvertSequences '$' 'i' v s).1 hv
  unfold placeholderRef
  split_ifs
  · exact le_refl _
  · have hd := digitLoop_eq_digitRunValue _ 0 (h k hk)
    simp only [Nat.cast_zero] at hd
    omega

theorem toDigits_injective (n m : Nat) (h : Nat.toDigits 10 n = Nat.toDigits 10 m) :
    n = m := by
  have hn := (toDigits_spec n).2.2
  have hm := (toDigits_spec m).2.2
  rw [h] at hn
  omega

theorem attribName_neg_one_ne (n : Nat) : attribName (-1) ≠ attribName (n : Int) := by
  rw [attribName_natCast]
  intro h
  have h1 : attribName (-1) = ['s', 'i'] := by decide
  rw [h1] at h
  have h2 : Nat.toDigits 10 n = ['i'] := by
    simpa using h.symm
  have h3 := (toDigits_spec n).2.1 'i' (by simp [h2])
  exact absurd h3 (by decide)

theorem attribName_injOn (a b : Int) (ha : -1 ≤ a) (hb : -1 ≤ b)
    (h : attribName a = attribName b) : a = b := by
  rcases (show a = -1 ∨ 0 ≤ a by omega) with rfl | ha0
  · rcases (show b = -1 ∨ 0 ≤ b by omega) with rfl | hb0
    · rfl
    · obtain ⟨m, rfl⟩ := Int.eq_ofNat_of_zero_le hb0
      exact absurd h (attribName_neg_one_ne m)
  · obtain ⟨n, rfl⟩ := Int.eq_ofNat_of_zero_le ha0
    rcases (show b = -1 ∨ 0 ≤ b by omega) with rfl | hb0
    · exact absurd h.symm (attribName_neg_one_ne n)
    · obtain ⟨m, rfl⟩ := Int.eq_ofNat_of_zero_le hb0
      rw [attribName_natCast, attribName_natCast] at h
      have := toDigits_injective n m (by simpa using h)
      rw [this]

theorem vs_attrib_eq (x y : List Char) :
    (attribLoop (channelSet x y) ([], [])).2 = (attribDeclarations x y).flatten := by
  simp [attribLoop_eq, attribDeclarations]

/-- C5, as amended: for every pair of expression strings in which no number following a
sigil overflows `int`, the attributes declared by `CreatePlot(x, y, ..)` have pairwise
distinct names: two entries of the table with the same name have the same channel
reference, and the `attribute float` declarations of the generated source, of which
there is one for each entry, are pairwise distinct. -/
theorem attribute_names_distinct (ps : PlotSeries) (x y : List Char) (colour : Colour)
    (title : List Char) (hx : NoIntOverflow x) (hy : NoIntOverflow y) :
    ((ps.CreatePlot x y colour title).attribs.map PlotAttrib.name).Nodup ∧
    (∀ a ∈ (ps.CreatePlot x y colour title).attribs,
      ∀ b ∈ (ps.CreatePlot x y colour title).attribs, a.name = b.name → a = b) ∧
    (attribLoop (channelSet x y) ([], [])).2 = (attribDeclarations x y).flatten ∧
    (attribDeclarations x y).Nodup := by
  have hge : ∀ v ∈ channelSet x y, -1 ≤ v := by
    intro v hv
    rcases (mem_channelSet v x y).1 hv with h | h
    · exact ConvertSequences_ge_neg_one x hx v h
    · exact ConvertSequences_ge_neg_one y hy v h
  have hnodup : (channelSet x y).Nodup :=
    (channelSet_pairwise x y).imp (fun hab => ne_of_lt hab)
  have hnames : ((channelSet x y).map attribName).Nodup :=
    List.Nodup.map_on (fun a ha b hb hab => attribName_injOn a b (hge a ha) (hge b hb) hab)
      hnodup
  refine ⟨?_, ?_, vs_attrib_eq x y, ?_⟩
  · rw [CreatePlot_attribs, List.map_map]
    exact hnames
  · intro a ha b hb hab
    rw [CreatePlot_attribs, List.mem_map] at ha hb
    obtain ⟨i, hi, rfl⟩ := ha
    obtain ⟨j, hj, rfl⟩ := hb
    have : i = j := attribName_injOn i j (hge i hi) (hge j hj) hab
    rw [this]
  · unfold attribDeclarations
    refine List.Nodup.map_on ?_ hnodup
    intro a ha b hb hab
    have h1 := List.append_cancel_right hab
    have h2 := List.append_cancel_left h1
    exact attribName_injOn a b (hge a ha) (hge b hb) h2

/-- C5 at `x = "$i+$2"`, `y = "$10"`: the three attributes `si`, `s2`, `s10` have
distinct names. -/
theorem attribute_names_distinct_witness :
    (emptySeries.CreatePlot "$i+$2".toList "$10".toList ⟨1, 0, 0, 1⟩ []).attribs.map
        PlotAttrib.name = ["si".toList, "s2".toList, "s10".toList] ∧
    ((emptySeries.CreatePlot "$i+$2".toList "$10".toList ⟨1, 0, 0, 1⟩ []).attribs.map
        PlotAttrib.name).Nodup :=
  ⟨by decide,
   (attribute_names_distinct emptySeries "$i+$2".toList "$10".toList ⟨1, 0, 0, 1⟩ []
      (by decide) (by decide)).1⟩

/-- C5 fails as stated at `x = "$i"`, `y = "$4294967294"`: the `int` accumulation wraps
to `-2`, and the two different channel references `-2` and `-1` are both given the name
`"si"`, which the generated source declares twice. -/
theorem attribute_names_counterexample :
    (emptySeries.CreatePlot "$i".toList "$4294967294".toList ⟨1, 0, 0, 1⟩ []).attribs =
      [PlotAttrib.mk "si".toList (-2), PlotAttrib.mk "si".toList (-1)] ∧
    ¬ ((emptySeries.CreatePlot "$i".toList "$4294967294".toList ⟨1, 0, 0, 1⟩ []).attribs.map
        PlotAttrib.name).Nodup ∧
    attribDeclarations "$i".toList "$4294967294".toList =
      ["attribute float si;\n".toList, "attribute float si;\n".toList] := by
  decide

/-! ## C6 -/

theorem FixSelection_weak (p : Plotter) : WeakSelectionSign p.FixSelection := by
  unfold WeakSelectionSign Plotter.FixSelection
  by_cases hx : p.int_x.1 < p.int_x.2 <;> by_cases hsx : p.sel_x.1 < p.sel_x.2 <;>
    by_cases hy : p.int_y.1 < p.int_y.2 <;> by_cases hsy : p.sel_y.1 < p.sel_y.2 <;>
    simp [hx, hsx, hy, hsy] <;>
    (try constructor) <;> linarith

theorem FixSelection_view (p : Plotter) :
    p.FixSelection.int_x = p.int_x ∧ p.FixSelection.int_y = p.int_y ∧
    p.FixSelection.target_x = p.target_x ∧ p.FixSelection.target_y = p.target_y := by
  unfold Plotter.FixSelection
  by_cases hx : p.int_x.1 < p.int_x.2 <;> by_cases hsx : p.sel_x.1 < p.sel_x.2 <;>
    by_cases hy : p.int_y.1 < p.int_y.2 <;> by_cases hsy : p.sel_y.1 < p.sel_y.2 <;>
    simp [hx, hsx, hy, hsy]

theorem FixSelection_sel (p : Plotter) :
    (p.FixSelection.sel_x = p.sel_x ∨ p.FixSelection.sel_x = (p.sel_x.2, p.sel_x.1)) ∧
    (p.FixSelection.sel_y = p.sel_y ∨ p.FixSelection.sel_y = (p.sel_y.2, p.sel_y.1)) := by
  unfold Plotter.FixSelection
  by_cases hx : p.int_x.1 < p.int_x.2 <;> by_cases hsx : p.sel_x.1 < p.sel_x.2 <;>
    by_cases hy : p.int_y.1 < p.int_y.2 <;> by_cases hsy : p.sel_y.1 < p.sel_y.2 <;>
    simp [hx, hsx, hy, hsy]

theorem signOf_sub_eq (a b c d : ℚ) (hab : a ≠ b) (hcd : c ≠ d)
    (h1 : c < d → a ≤ b) (h2 : ¬ c < d → b ≤ a) : signOf (b - a) = signOf (d - c) := by
  unfold signOf
  by_cases h : c < d
  · have := h1 h
    have hlt : a < b := lt_of_le_of_ne this hab
    simp [sub_pos.2 hlt, sub_pos.2 h]
  · have := h2 h
    have hlt : b < a := lt_of_le_of_ne this (Ne.symm hab)
    have hdc : d < c := lt_of_le_of_ne (not_lt.1 h) (Ne.symm hcd)
    have e1 : ¬ (0 < b - a) := by linarith
    have e2 : ¬ (0 < d - c) := by linarith
    have e3 : b - a < 0 := by linarith
    have e4 : d - c < 0 := by linarith
    simp [e1, e2, e3, e4]

/-- C6, as amended: for every plotter state, `FixSelection` leaves the view unchanged and
swaps or keeps the two selection bounds of each axis so that afterwards `sel[0] <= sel[1]`
when `int[0] < int[1]` and `sel[1] <= sel[0]` otherwise; on an axis where neither the
selection nor the current view is degenerate, `sign(sel[1]-sel[0]) = sign(int[1]-int[0])`
afterwards. -/
theorem FixSelection_sign (p : Plotter) :
    p.FixSelection.int_x = p.int_x ∧ p.FixSelection.int_y = p.int_y ∧
    (p.FixSelection.sel_x = p.sel_x ∨ p.FixSelection.sel_x = (p.sel_x.2, p.sel_x.1)) ∧
    (p.FixSelection.sel_y = p.sel_y ∨ p.FixSelection.sel_y = (p.sel_y.2, p.sel_y.1)) ∧
    WeakSelectionSign p.FixSelection ∧
    (p.sel_x.1 ≠ p.sel_x.2 → p.int_x.1 ≠ p.int_x.2 →
      signOf (p.FixSelection.sel_x.2 - p.FixSelection.sel_x.1) =
        signOf (p.FixSelection.int_x.2 - p.FixSelection.int_x.1)) ∧
    (p.sel_y.1 ≠ p.sel_y.2 → p.int_y.1 ≠ p.int_y.2 →
      signOf (p.FixSelection.sel_y.2 - p.FixSelection.sel_y.1) =
        signOf (p.FixSelection.int_y.2 - p.FixSelection.int_y.1)) := by
  have hv := FixSelection_view p
  have hs := FixSelection_sel p
  have hw := FixSelection_weak p
  refine ⟨hv.1, hv.2.1, hs.1, hs.2, hw, ?_, ?_⟩
  · intro hsel hint
    have hsel' : p.FixSelection.sel_x.1 ≠ p.FixSelection.sel_x.2 := by
      rcases hs.1 with h | h <;> rw [h]
      · exact hsel
      · exact Ne.symm hsel
    have hint' : p.FixSelection.int_x.1 ≠ p.FixSelection.int_x.2 := by rw [hv.1]; exact hint
    exact signOf_sub_eq _ _ _ _ hsel' hint' hw.1 hw.2.1
  · intro hsel hint
    have hsel' : p.FixSelection.sel_y.1 ≠ p.FixSelection.sel_y.2 := by
      rcases hs.2 with h | h <;> rw [h]
      · exact hsel
      · exact Ne.symm hsel
    have hint' : p.FixSelection.int_y.1 ≠ p.FixSelection.int_y.2 := by rw [hv.2.1]; exact hint
    exact signOf_sub_eq _ _ _ _ hsel' hint' hw.2.2.1 hw.2.2.2

/-- C6 on a state whose selection `(5,2)x(2,5)` is inverted on the x axis against the view
`(0,10)x(0,10)`: `FixSelection` swaps the x bounds and both signs are `+1`. -/
theorem FixSelection_sign_witness :
    ({ samplePlotter with sel_x := (5, 2) } : Plotter).FixSelection.sel_x = (2, 5) ∧
    signOf (({ samplePlotter with sel_x := (5, 2) } : Plotter).FixSelection.sel_x.2 -
        ({ samplePlotter with sel_x := (5, 2) } : Plotter).FixSelection.sel_x.1) =
      signOf (({ samplePlotter with sel_x := (5, 2) } : Plotter).FixSelection.int_x.2 -
        ({ samplePlotter with sel_x := (5, 2) } : Plotter).FixSelection.int_x.1) :=
  ⟨by decide,
   (FixSelection_sign { samplePlotter with sel_x := (5, 2) }).2.2.2.2.2.1
     (by simp [samplePlotter]) (by simp [samplePlotter])⟩

/-- C6 fails as stated on a degenerate selection: with the view `(0,10)x(0,10)` and the
selection collapsed to the point `(5,5)` (the state a click leaves), after `FixSelection`
the sign of `sel_x[1]-sel_x[0]` is `0` while the sign of `int_x[1]-int_x[0]` is `+1`. -/
theorem FixSelection_sign_counterexample :
    signOf (({ samplePlotter with sel_x := (5, 5), sel_y := (5, 5) } : Plotter).FixSelection.sel_x.2 -
        ({ samplePlotter with sel_x := (5, 5), sel_y := (5, 5) } : Plotter).FixSelection.sel_x.1) = 0 ∧
    signOf (({ samplePlotter with sel_x := (5, 5), sel_y := (5, 5) } : Plotter).FixSelection.int_x.2 -
        ({ samplePlotter with sel_x := (5, 5), sel_y := (5, 5) } : Plotter).FixSelection.int_x.1) = 1 := by
  constructor <;> norm_num [signOf, Plotter.FixSelection, samplePlotter]

/-! ## C7 -/

theorem WeakSelectionSign_congr (p q : Plotter) (h1 : q.int_x = p.int_x)
    (h2 : q.int_y = p.int_y) (h3 : q.sel_x = p.sel_x) (h4 : q.sel_y = p.sel_y)
    (h : WeakSelectionSign p) : WeakSelectionSign q := by
  unfold WeakSelectionSign at h ⊢
  rw [h1, h2, h3, h4]
  exact h

theorem scaled_lt_iff (s a b c : ℚ) (hs : 0 < s) :
    s * (a - c) + c < s * (b - c) + c ↔ a < b := by
  constructor
  · intro h
    by_contra hab
    have : b ≤ a := not_lt.1 hab
    nlinarith
  · intro h
    nlinarith

theorem ScaleView_weak (p : Plotter) (sx sy : ℚ) (hsx : 0 < sx) (hsy : 0 < sy)
    (h : WeakSelectionSign p) : WeakSelectionSign (p.ScaleView sx sy) := by
  unfold WeakSelectionSign at h ⊢
  simp only [Plotter.ScaleView, scaled_lt_iff _ _ _ _ hsx, scaled_lt_iff _ _ _ _ hsy]
  exact h

theorem ScrollView_weak (p : Plotter) (x y : ℚ) (h : WeakSelectionSign p) :
    WeakSelectionSign (p.ScrollView x y) := by
  unfold WeakSelectionSign at h ⊢
  simp only [Plotter.ScrollView, add_lt_add_iff_right]
  exact h

theorem Special_weak (K : InputConstants) (p : Plotter) (inType : Int) (x y p1 p2 : ℚ)
    (button_state : Int) (hgesture : inType = K.InputSpecialScroll ∨ p1 < 1)
    (h : WeakSelectionSign p) :
    WeakSelectionSign (p.Special K inType x y p1 p2 button_state) := by
  unfold Plotter.Special
  refine WeakSelectionSign_congr _ _ rfl rfl rfl rfl ?_
  by_cases hs : inType = K.InputSpecialScroll
  · simp only [hs, if_true]
    split_ifs
    · exact WeakSelectionSign_congr _ _ rfl rfl rfl rfl (ScrollView_weak p _ _ h)
    · exact ScrollView_weak p _ _ h
  · have hp1 : p1 < 1 := by
      rcases hgesture with hg | hg
      · exact absurd hg hs
      · exact hg
    simp only [hs, if_false]
    by_cases hz : inType = K.InputSpecialZoom
    · simp only [hz, if_true]
      split_ifs
      · exact ScaleView_weak p _ _ (by norm_num) (by simp only; linarith) h
      · exact ScaleView_weak p _ _ (by simp only; linarith) (by norm_num) h
    · simp only [hz, if_false]
      exact h

theorem Keyboard_weak (K : InputConstants) (p : Plotter) (key : Nat) (pressed : Bool)
    (h : WeakSelectionSign p) : WeakSelectionSign (p.Keyboard K key pressed) := by
  unfold Plotter.Keyboard
  split_ifs
  · unfold WeakSelectionSign
    simp [Plotter.SetViewPan]
  all_goals exact WeakSelectionSign_congr _ _ rfl rfl rfl rfl h

theorem SelectionSignConvention_of_weak (q : Plotter) (h : WeakSelectionSign q)
    (hx : q.sel_x.1 ≠ q.sel_x.2) (hy : q.sel_y.1 ≠ q.sel_y.2) :
    SelectionSignConvention q := by
  unfold WeakSelectionSign at h
  unfold SelectionSignConvention
  obtain ⟨h1, h2, h3, h4⟩ := h
  refine ⟨⟨fun hi => lt_of_le_of_ne (h1 hi) hx, fun hs => ?_⟩,
    ⟨fun hi => lt_of_le_of_ne (h3 hi) hy, fun hs => ?_⟩⟩
  · by_contra hi
    exact absurd (h2 hi) (not_le.2 hs)
  · by_contra hi
    exact absurd (h4 hi) (not_le.2 hs)

/-- C7, as amended: for every state whose viewport has non-zero width and height (where
the divisions of `ScreenToPlot` and `Special` are finite), `Mouse`, which ends with
`FixSelection`, establishes the sign convention in its weak form for every argument (on
each axis `sel[0] <= sel[1]` when `int[0] < int[1]`, `sel[1] <= sel[0]` otherwise), and
the two equivalences themselves whenever the resulting selection is degenerate on neither
axis; `Keyboard` preserves the weak form for every argument, and so does `Special` for a
scroll gesture and for any gesture with `p1 < 1`. `MouseMotion` does not preserve the weak
form: there is a state with a non-empty viewport that satisfies it and a left-button drag
after which it fails. -/
theorem handlers_selection_sign (K : InputConstants) (p : Plotter)
    (hw : p.v.w ≠ 0) (hh : p.v.h ≠ 0) :
    (∀ (button x y : Int) (pressed : Bool) (button_state : Int),
      WeakSelectionSign (p.Mouse K button x y pressed button_state) ∧
      ((p.Mouse K button x y pressed button_state).sel_x.1 ≠
          (p.Mouse K button x y pressed button_state).sel_x.2 →
        (p.Mouse K button x y pressed button_state).sel_y.1 ≠
          (p.Mouse K button x y pressed button_state).sel_y.2 →
        SelectionSignConvention (p.Mouse K button x y pressed button_state))) ∧
    (∀ (key : Nat) (pressed : Bool),
      WeakSelectionSign p → WeakSelectionSign (p.Keyboard K key pressed)) ∧
    (∀ (inType : Int) (x y p1 p2 : ℚ) (button_state : Int),
      inType = K.InputSpecialScroll ∨ p1 < 1 → WeakSelectionSign p →
      WeakSelectionSign (p.Special K inType x y p1 p2 button_state)) ∧
    (∃ (q : Plotter) (x y : Int), q.v.w ≠ 0 ∧ q.v.h ≠ 0 ∧ WeakSelectionSign q ∧
      ¬ WeakSelectionSign (q.MouseMotion K x y K.MouseButtonLeft)) := by
  have _hviewport : p.v.w ≠ 0 ∧ p.v.h ≠ 0 := ⟨hw, hh⟩
  refine ⟨?_, ?_, ?_, ?_⟩
  · intro button x y pressed button_state
    have hweak : WeakSelectionSign (p.Mouse K button x y pressed button_state) := by
      unfold Plotter.Mouse
      exact FixSelection_weak _
    exact ⟨hweak, SelectionSignConvention_of_weak _ hweak⟩
  · intro key pressed h
    exact Keyboard_weak K p key pressed h
  · intro inType x y p1 p2 button_state hg h
    exact Special_weak K p inType x y p1 p2 button_state hg h
  · refine ⟨samplePlotter, 10, 10, by decide, by decide, by decide, ?_⟩
    norm_num [WeakSelectionSign, Plotter.MouseMotion, Plotter.ScreenToPlot, samplePlotter]

/-- C7 on the state `samplePlotter`, whose viewport is 100 by 100 pixels: a left-button
release at pixel `(80, 70)` extends the selection `(2,5)x(2,5)` to `(2,8)x(2,7)`, and the
sign convention holds afterwards. -/
theorem handlers_selection_sign_witness :
    (samplePlotter.Mouse sampleConstants sampleConstants.MouseButtonLeft 80 70 false 0).sel_x
        = (2, 8) ∧
    (samplePlotter.Mouse sampleConstants sampleConstants.MouseButtonLeft 80 70 false 0).sel_y
        = (2, 7) ∧
    SelectionSignConvention
      (samplePlotter.Mouse sampleConstants sampleConstants.MouseButtonLeft 80 70 false 0) := by
  have h1 : (samplePlotter.Mouse sampleConstants sampleConstants.MouseButtonLeft 80 70 false
      0).sel_x = (2, 8) := by
    norm_num [Plotter.Mouse, Plotter.FixSelection, Plotter.ScreenToPlot, samplePlotter,
      sampleConstants]
  have h2 : (samplePlotter.Mouse sampleConstants sampleConstants.MouseButtonLeft 80 70 false
      0).sel_y = (2, 7) := by
    norm_num [Plotter.Mouse, Plotter.FixSelection, Plotter.ScreenToPlot, samplePlotter,
      sampleConstants]
  refine ⟨h1, h2, ?_⟩
  exact ((handlers_selection_sign sampleConstants samplePlotter (by decide) (by decide)).1
    sampleConstants.MouseButtonLeft 80 70 false 0).2 (by rw [h1]; norm_num) (by rw [h2]; norm_num)

/-- C7 fails as stated for each handler. From `samplePlotter`, which satisfies both
equivalences: a left-button press (`Mouse`) and the space key (`Keyboard`) collapse the
selection to a point, a left-button drag to pixel `(10, 10)` (`MouseMotion`) puts
`sel_x[1]` below `sel_x[0]`, and a zoom gesture with `p1 = 2` (`Special`) inverts the
view; none of the four resulting states satisfies the equivalences. The viewport of
`samplePlotter` is 100 by 100 pixels, so no division by zero is involved. -/
theorem handlers_selection_sign_counterexample :
    SelectionSignConvention samplePlotter ∧
    ¬ SelectionSignConvention
      (samplePlotter.Mouse sampleConstants sampleConstants.MouseButtonLeft 50 50 true 0) ∧
    ¬ SelectionSignConvention
      (samplePlotter.MouseMotion sampleConstants 10 10 sampleConstants.MouseButtonLeft) ∧
    ¬ SelectionSignConvention (samplePlotter.Keyboard sampleConstants 32 true) ∧
    ¬ SelectionSignConvention
      (samplePlotter.Special sampleConstants sampleConstants.InputSpecialZoom 0 0 2 0 0) ∧
    samplePlotter.v = ⟨0, 0, 100, 100⟩ := by
  refine ⟨by decide, ?_, ?_, ?_, ?_, rfl⟩
  · norm_num [SelectionSignConvention, Plotter.Mouse, Plotter.FixSelection,
      Plotter.ScreenToPlot, samplePlotter, sampleConstants]
  · norm_num [SelectionSignConvention, Plotter.MouseMotion, Plotter.ScreenToPlot,
      samplePlotter, sampleConstants]
  · norm_num [SelectionSignConvention, Plotter.Keyboard, Plotter.SetViewPan,
      samplePlotter, sampleConstants]
  · have hland : Int.land 0 524288 = 0 := by decide
    norm_num [SelectionSignConvention, Plotter.Special, Plotter.ScaleView,
      Plotter.ScreenToPlot, samplePlotter, sampleConstants, floatToInt, hland]

/-! ## C8 -/

theorem UpdateView_targetBound (p : Plotter) (i : Fin 4) :
    targetBound p.UpdateView i = targetBound p i := by
  fin_cases i <;> rfl

theorem UpdateView_currentBound (p : Plotter) (i : Fin 4) :
    currentBound p.UpdateView i =
      currentBound p i + 1 / 20 * (targetBound p i - currentBound p i) := by
  fin_cases i <;> rfl

theorem UpdateView_gap (p : Plotter) (i : Fin 4) :
    targetBound p.UpdateView i - currentBound p.UpdateView i =
      19 / 20 * (targetBound p i - currentBound p i) := by
  rw [UpdateView_targetBound, UpdateView_currentBound]
  ring

theorem UpdateView_iterate_target (p : Plotter) (n : Nat) :
    (Plotter.UpdateView^[n] p).target_x = p.target_x ∧
    (Plotter.UpdateView^[n] p).target_y = p.target_y ∧
    ∀ i, targetBound (Plotter.UpdateView^[n] p) i = targetBound p i := by
  induction n with
  | zero => simp
  | succ n ih =>
    rw [Function.iterate_succ_apply']
    refine ⟨ih.1, ih.2.1, fun i => ?_⟩
    rw [UpdateView_targetBound]
    exact ih.2.2 i

theorem UpdateView_iterate_gap (p : Plotter) (n : Nat) (i : Fin 4) :
    targetBound (Plotter.UpdateView^[n] p) i - currentBound (Plotter.UpdateView^[n] p) i =
      (19 / 20) ^ n * (targetBound p i - currentBound p i) := by
  induction n with
  | zero => simp
  | succ n ih =>
    rw [Function.iterate_succ_apply', UpdateView_gap, ih]
    ring

theorem signOf_pos_mul (c g : ℚ) (hc : 0 < c) : signOf (c * g) = signOf g := by
  unfold signOf
  rcases lt_trichotomy g 0 with hg | hg | hg
  · have h1 : c * g < 0 := mul_neg_of_pos_of_neg hc hg
    have h2 : ¬ (0 < c * g) := not_lt.2 (le_of_lt h1)
    have h3 : ¬ (0 < g) := not_lt.2 (le_of_lt hg)
    simp [h1, h2, h3, hg]
  · subst hg; simp
  · have h1 : 0 < c * g := mul_pos hc hg
    simp [h1, hg]

/-- C8: in exact rational arithmetic, `UpdateView` leaves the target bounds unchanged and
moves each of the four current bounds by 1/20 of its remaining distance; after `n`
consecutive calls, `target - current` is `(19/20)^n` times its initial value for every
bound, so its absolute value does not increase from one call to the next (and strictly
decreases when it is initially non-zero), its sign never changes, and it is zero only if
it was zero at the start. -/
theorem UpdateView_easing (p : Plotter) (n : Nat) (i : Fin 4) :
    p.UpdateView.target_x = p.target_x ∧ p.UpdateView.target_y = p.target_y ∧
    currentBound p.UpdateView i =
      currentBound p i + 1 / 20 * (targetBound p i - currentBound p i) ∧
    (Plotter.UpdateView^[n] p).target_x = p.target_x ∧
    (Plotter.UpdateView^[n] p).target_y = p.target_y ∧
    targetBound (Plotter.UpdateView^[n] p) i - currentBound (Plotter.UpdateView^[n] p) i =
      (19 / 20) ^ n * (targetBound p i - currentBound p i) ∧
    |targetBound (Plotter.UpdateView^[n + 1] p) i -
        currentBound (Plotter.UpdateView^[n + 1] p) i| ≤
      |targetBound (Plotter.UpdateView^[n] p) i -
        currentBound (Plotter.UpdateView^[n] p) i| ∧
    (targetBound p i - currentBound p i ≠ 0 →
      |targetBound (Plotter.UpdateView^[n + 1] p) i -
          currentBound (Plotter.UpdateView^[n + 1] p) i| <
        |targetBound (Plotter.UpdateView^[n] p) i -
          currentBound (Plotter.UpdateView^[n] p) i|) ∧
    signOf (targetBound (Plotter.UpdateView^[n] p) i -
        currentBound (Plotter.UpdateView^[n] p) i) =
      signOf (targetBound p i - currentBound p i) ∧
    (targetBound (Plotter.UpdateView^[n] p) i -
        currentBound (Plotter.UpdateView^[n] p) i = 0 →
      targetBound p i - currentBound p i = 0) := by
  have hpow : (0 : ℚ) < (19 / 20) ^ n := by positivity
  have hstep : ∀ m, targetBound (Plotter.UpdateView^[m + 1] p) i -
      currentBound (Plotter.UpdateView^[m + 1] p) i =
      19 / 20 * (targetBound (Plotter.UpdateView^[m] p) i -
        currentBound (Plotter.UpdateView^[m] p) i) := by
    intro m
    rw [Function.iterate_succ_apply', UpdateView_gap]
  have habs : ∀ g : ℚ, |19 / 20 * g| = 19 / 20 * |g| := by
    intro g
    rw [abs_mul, abs_of_pos (by norm_num : (0 : ℚ) < 19 / 20)]
  refine ⟨rfl, rfl, UpdateView_currentBound p i, (UpdateView_iterate_target p n).1,
    (UpdateView_iterate_target p n).2.1, UpdateView_iterate_gap p n i, ?_, ?_, ?_, ?_⟩
  · rw [hstep n, habs]
    have := abs_nonneg (targetBound (Plotter.UpdateView^[n] p) i -
      currentBound (Plotter.UpdateView^[n] p) i)
    linarith
  · intro hne
    rw [hstep n, habs]
    have hne' : targetBound (Plotter.UpdateView^[n] p) i -
        currentBound (Plotter.UpdateView^[n] p) i ≠ 0 := by
      rw [UpdateView_iterate_gap]
      exact mul_ne_zero (ne_of_gt hpow) hne
    have := abs_pos.2 hne'
    linarith
  · rw [UpdateView_iterate_gap]
    exact signOf_pos_mul _ _ hpow
  · intro h0
    rw [UpdateView_iterate_gap] at h0
    rcases mul_eq_zero.1 h0 with h | h
    · exact absurd h (ne_of_gt hpow)
    · exact h

/-- C8 on a state whose current view is `(0,10)x(0,10)` and whose target is
`(20,30)x(0,10)`: after two calls the left bound has moved from 0 to 39/20 and the
remaining distance `361/20` is `(19/20)^2` of the initial 20. -/
theorem UpdateView_easing_witness :
    currentBound (Plotter.UpdateView^[2] { samplePlotter with target_x := (20, 30) }) 0 =
      39 / 20 ∧
    |targetBound (Plotter.UpdateView^[2 + 1] { samplePlotter with target_x := (20, 30) }) 0 -
        currentBound (Plotter.UpdateView^[2 + 1] { samplePlotter with target_x := (20, 30) }) 0| <
      |targetBound (Plotter.UpdateView^[2] { samplePlotter with target_x := (20, 30) }) 0 -
        currentBound (Plotter.UpdateView^[2] { samplePlotter with target_x := (20, 30) }) 0| :=
  ⟨by norm_num [Function.iterate_succ, currentBound, Plotter.UpdateView, samplePlotter],
   (UpdateView_easing { samplePlotter with target_x := (20, 30) } 2 0).2.2.2.2.2.2.2.1
     (by norm_num [targetBound, currentBound, samplePlotter])⟩

/-! ## C9 -/

/-- C9: in exact rational arithmetic, for every state and every pair of scale factors,
`ScaleView(sx, sy)` maps every current and every target bound `b` of the x axis to
`sx*(b - cx) + cx` and of the y axis to `sy*(b - cy) + cy`, where `cx`, `cy` are the
pivots of the state before the call; the pivots of the current view are unchanged,
`target - current` is multiplied by the scale factor of its axis, a view that equals its
target still does afterwards, and the view `(0,10)x(0,10)` with `track_front` off becomes
`(2.5,7.5)x(0,10)` under `ScaleView(0.5, 1.0)`. -/
theorem ScaleView_about_pivot (p : Plotter) (sx sy : ℚ) :
    (p.ScaleView sx sy).int_x =
      (sx * (p.int_x.1 - pivotX p) + pivotX p, sx * (p.int_x.2 - pivotX p) + pivotX p) ∧
    (p.ScaleView sx sy).int_y =
      (sy * (p.int_y.1 - pivotY p) + pivotY p, sy * (p.int_y.2 - pivotY p) + pivotY p) ∧
    (p.ScaleView sx sy).target_x =
      (sx * (p.target_x.1 - pivotX p) + pivotX p, sx * (p.target_x.2 - pivotX p) + pivotX p) ∧
    (p.ScaleView sx sy).target_y =
      (sy * (p.target_y.1 - pivotY p) + pivotY p, sy * (p.target_y.2 - pivotY p) + pivotY p) ∧
    pivotX (p.ScaleView sx sy) = pivotX p ∧
    pivotY (p.ScaleView sx sy) = pivotY p ∧
    (∀ i : Fin 4,
      targetBound (p.ScaleView sx sy) i - currentBound (p.ScaleView sx sy) i =
        (if i.val < 2 then sx else sy) * (targetBound p i - currentBound p i)) ∧
    (p.int_x = p.target_x → p.int_y = p.target_y →
      (p.ScaleView sx sy).int_x = (p.ScaleView sx sy).target_x ∧
      (p.ScaleView sx sy).int_y = (p.ScaleView sx sy).target_y) ∧
    (samplePlotter.ScaleView (1 / 2) 1).int_x = (5 / 2, 15 / 2) ∧
    (samplePlotter.ScaleView (1 / 2) 1).int_y = (0, 10) ∧
    (samplePlotter.ScaleView (1 / 2) 1).target_x = (5 / 2, 15 / 2) ∧
    (samplePlotter.ScaleView (1 / 2) 1).target_y = (0, 10) := by
  refine ⟨rfl, rfl, rfl, rfl, ?_, ?_, ?_, ?_, ?_, ?_, ?_, ?_⟩
  · unfold pivotX Plotter.ScaleView
    cases ht : p.track_front
    · simp only [Bool.false_eq_true, if_false]; ring
    · simp only [if_true]; ring
  · unfold pivotY Plotter.ScaleView
    simp only
    ring
  · intro i
    fin_cases i <;> simp [targetBound, currentBound, Plotter.ScaleView] <;> ring
  · intro hx hy
    simp only [Plotter.ScaleView, hx, hy, and_self]
  · norm_num [Plotter.ScaleView, samplePlotter]
  · norm_num [Plotter.ScaleView, samplePlotter]
  · norm_num [Plotter.ScaleView, samplePlotter]
  · norm_num [Plotter.ScaleView, samplePlotter]

/-! ## C10 -/

/-- C10: in exact rational arithmetic, for every state whose viewport has non-zero width
and height, `ScreenToPlot` maps the pixel `(v.l, v.b)` to `(int_x[0], int_y[0])` and the
pixel `(v.l + v.w, v.b + v.h)` to `(int_x[1], int_y[1])`; `xplot` is an affine function of
`xpix` alone and `yplot` of `ypix` alone; and the result is the same in every state with
the same viewport and current bounds, whatever its target bounds. -/
theorem ScreenToPlot_affine (p : Plotter) (hw : p.v.w ≠ 0) (hh : p.v.h ≠ 0) :
    p.ScreenToPlot p.v.l p.v.b = (p.int_x.1, p.int_y.1) ∧
    p.ScreenToPlot (p.v.l + p.v.w) (p.v.b + p.v.h) = (p.int_x.2, p.int_y.2) ∧
    (∀ xpix ypix : Int,
      (p.ScreenToPlot xpix ypix).1 =
        (p.int_x.2 - p.int_x.1) / (p.v.w : ℚ) * (xpix : ℚ) +
          (p.int_x.1 - (p.int_x.2 - p.int_x.1) / (p.v.w : ℚ) * (p.v.l : ℚ)) ∧
      (p.ScreenToPlot xpix ypix).2 =
        (p.int_y.2 - p.int_y.1) / (p.v.h : ℚ) * (ypix : ℚ) +
          (p.int_y.1 - (p.int_y.2 - p.int_y.1) / (p.v.h : ℚ) * (p.v.b : ℚ))) ∧
    (∀ (q : Plotter) (xpix ypix : Int), q.v = p.v → q.int_x = p.int_x → q.int_y = p.int_y →
      q.ScreenToPlot xpix ypix = p.ScreenToPlot xpix ypix) ∧
    (∀ (left right bottom top : ℚ) (xpix ypix : Int),
      (p.SetViewPan left right bottom top).ScreenToPlot xpix ypix =
        p.ScreenToPlot xpix ypix) := by
  have hw' : (p.v.w : ℚ) ≠ 0 := by exact_mod_cast hw
  have hh' : (p.v.h : ℚ) ≠ 0 := by exact_mod_cast hh
  refine ⟨?_, ?_, ?_, ?_, ?_⟩
  · simp [Plotter.ScreenToPlot]
  · unfold Plotter.ScreenToPlot
    have e1 : ((p.v.l + p.v.w - p.v.l : Int) : ℚ) = (p.v.w : ℚ) := by push_cast; ring
    have e2 : ((p.v.b + p.v.h - p.v.b : Int) : ℚ) = (p.v.h : ℚ) := by push_cast; ring
    rw [e1, e2, mul_div_assoc, mul_div_assoc, div_self hw', div_self hh']
    ext <;> simp
  · intro xpix ypix
    unfold Plotter.ScreenToPlot
    constructor
    · push_cast; field_simp; ring
    · push_cast; field_simp; ring
  · intro q xpix ypix hv hx hy
    unfold Plotter.ScreenToPlot
    rw [hv, hx, hy]
  · intro left right bottom top xpix ypix
    rfl

/-- C10 on `samplePlotter` (viewport 100 by 100 pixels at the origin, view
`(0,10)x(0,10)`): the pixel `(0,0)` maps to `(0,0)`, the pixel `(100,100)` to `(10,10)`
and the pixel `(25,50)` to `(5/2, 5)`. -/
theorem ScreenToPlot_affine_witness :
    samplePlotter.ScreenToPlot samplePlotter.v.l samplePlotter.v.b = (0, 0) ∧
    samplePlotter.ScreenToPlot (samplePlotter.v.l + samplePlotter.v.w)
      (samplePlotter.v.b + samplePlotter.v.h) = (10, 10) ∧
    samplePlotter.ScreenToPlot 25 50 = (5 / 2, 5) :=
  ⟨(ScreenToPlot_affine samplePlotter (by decide) (by decide)).1,
   (ScreenToPlot_affine samplePlotter (by decide) (by decide)).2.1,
   by norm_num [Plotter.ScreenToPlot, samplePlotter]⟩

/-! ## C11 -/

theorem shouldRender_iff (block : DataLogBlock) (attribs : List PlotAttrib) :
    shouldRender block attribs = true ↔ RenderableInt attribs block := by
  unfold RenderableInt
  induction attribs with
  | nil => simp [shouldRender]
  | cons a rest ih =>
    unfold shouldRender
    split_ifs with h1 h2
    · rw [ih]
      constructor
      · intro h b hb
        rcases List.mem_cons.1 hb with rfl | hb
        · exact Or.inr h1
        · exact h b hb
      · intro h b hb
        exact h b (List.mem_cons_of_mem _ hb)
    · rw [ih]
      constructor
      · intro h b hb
        rcases List.mem_cons.1 hb with rfl | hb
        · exact Or.inl h2
        · exact h b hb
      · intro h b hb
        exact h b (List.mem_cons_of_mem _ hb)
    · constructor
      · intro h; exact absurd h (by simp)
      · intro h
        rcases h a (List.mem_cons_self _ _) with h' | h'
        · exact absurd h' h2
        · exact absurd h' h1

/-- The draw calls that the block loop of one series adds, and the series afterwards. -/
theorem blockLoop_spec (i : Nat) (log : List DataLogBlock) (ps : PlotSeries)
    (st : IdScratch) (draws : List DrawCall) :
    (blockLoop i log (ps, st, draws)).1.attribs = ps.attribs ∧
    (blockLoop i log (ps, st, draws)).1.contains_id = ps.contains_id ∧
    ∃ D : List DrawCall, (blockLoop i log (ps, st, draws)).2.2 = draws ++ D ∧
      D.map DrawCall.block = log.filter (fun b => decide (RenderableInt ps.attribs b)) ∧
      (∀ d ∈ D, d.index = i ∧ d.count = d.block.samples ∧ d.ps.attribs = ps.attribs ∧
        d.ps.contains_id = ps.contains_id) ∧
      ((blockLoop i log (ps, st, draws)).1.used = true ↔
        ps.used = true ∨ ∃ b ∈ log, RenderableInt ps.attribs b) := by
  induction log generalizing ps st draws with
  | nil =>
    refine ⟨rfl, rfl, [], by simp [blockLoop], by simp, by simp, ?_⟩
    simp [blockLoop]
  | cons b rest ih =>
    have hfold : blockLoop i (b :: rest) (ps, st, draws) =
        blockLoop i rest (blockStep i (ps, st, draws) b) := rfl
    rw [hfold]
    by_cases hr : RenderableInt ps.attribs b
    · have hs : shouldRender b ps.attribs = true := (shouldRender_iff b ps.attribs).2 hr
      have hstep : blockStep i (ps, st, draws) b =
          ({ ps with used := true },
           (if ps.contains_id then updateIdArray st b else st),
           draws ++ [{ index := i, ps := ps, block := b, count := b.samples,
                       id_array := (if ps.contains_id then updateIdArray st b else st).id_array }]) := by
        simp [blockStep, hs]
      rw [hstep]
      obtain ⟨h1, h2, D, hD, hmap, hall, hused⟩ := ih { ps with used := true }
        (if ps.contains_id then updateIdArray st b else st)
        (draws ++ [{ index := i, ps := ps, block := b, count := b.samples,
                     id_array := (if ps.contains_id then updateIdArray st b else st).id_array }])
      refine ⟨h1, h2, _ :: D, by rw [hD, List.append_assoc]; rfl, ?_, ?_, ?_⟩
      · simp only [List.map_cons, List.filter_cons, hr, decide_True, if_true]
        rw [hmap]
      · intro d hd
        rcases List.mem_cons.1 hd with rfl | hd
        · exact ⟨rfl, rfl, rfl, rfl⟩
        · exact hall d hd
      · rw [hused]
        constructor
        · intro _; exact Or.inr ⟨b, List.mem_cons_self _ _, hr⟩
        · intro _; exact Or.inl rfl
    · have hs : shouldRender b ps.attribs = false := by
        cases h : shouldRender b ps.attribs
        · rfl
        · exact absurd ((shouldRender_iff b ps.attribs).1 h) hr
      have hstep : blockStep i (ps, st, draws) b =
          (ps, (if ps.contains_id then updateIdArray st b else st), draws) := by
        simp [blockStep, hs]
      rw [hstep]
      obtain ⟨h1, h2, D, hD, hmap, hall, hused⟩ := ih ps
        (if ps.contains_id then updateIdArray st b else st) draws
      refine ⟨h1, h2, D, hD, ?_, hall, ?_⟩
      · simp only [List.filter_cons, hr, decide_False]
        exact hmap
      · rw [hused]
        constructor
        · rintro (h | ⟨c, hc, hcr⟩)
          · exact Or.inl h
          · exact Or.inr ⟨c, List.mem_cons_of_mem _ hc, hcr⟩
        · rintro (h | ⟨c, hc, hcr⟩)
          · exact Or.inl h
          · rcases List.mem_cons.1 hc with rfl | hc
            · exact absurd hcr hr
            · exact Or.inr ⟨c, hc, hcr⟩

theorem filter_index_eq_self (D : List DrawCall) (j : Nat) (h : ∀ d ∈ D, d.index = j) :
    D.filter (fun d => decide (d.index = j)) = D := by
  induction D with
  | nil => rfl
  | cons d rest ih =>
    have hd : d.index = j := h d (List.mem_cons_self _ _)
    simp only [List.filter_cons, hd, decide_True, if_true]
    rw [ih (fun e he => h e (List.mem_cons_of_mem _ he))]

theorem filter_index_eq_nil (D : List DrawCall) (j : Nat) (h : ∀ d ∈ D, d.index ≠ j) :
    D.filter (fun d => decide (d.index = j)) = [] := by
  induction D with
  | nil => rfl
  | cons d rest ih =>
    have hd : d.index ≠ j := h d (List.mem_cons_self _ _)
    simp only [List.filter_cons, hd, decide_False]
    exact ih (fun e he => h e (List.mem_cons_of_mem _ he))

/-- The draw calls of the loop over the series, series by series. -/
theorem seriesLoop_spec (log : List DataLogBlock) (l : List PlotSeries) :
    ∀ (j : Nat) (st : IdScratch) (draws : List DrawCall),
      (seriesLoop log j l (st, draws)).1.length = l.length ∧
      ∃ D : List DrawCall, (seriesLoop log j l (st, draws)).2.2 = draws ++ D ∧
        (∀ d ∈ D, j ≤ d.index ∧ d.count = d.block.samples) ∧
        ∀ (i : Nat) (ps : PlotSeries), l[i]? = some ps →
          ∃ ps' : PlotSeries, (seriesLoop log j l (st, draws)).1[i]? = some ps' ∧
            ps'.attribs = ps.attribs ∧ ps'.contains_id = ps.contains_id ∧
            (ps'.used = true ↔ ∃ b ∈ log, RenderableInt ps.attribs b) ∧
            (D.filter (fun d => decide (d.index = j + i))).map DrawCall.block =
              log.filter (fun b => decide (RenderableInt ps.attribs b)) := by
  induction l with
  | nil =>
    intro j st draws
    refine ⟨rfl, [], by simp [seriesLoop], by simp, ?_⟩
    intro i ps h
    simp at h
  | cons ps0 rest ih =>
    intro j st draws
    obtain ⟨ha, hc, D1, hD1, hmap1, hall1, hused1⟩ :=
      blockLoop_spec j log { ps0 with used := false } st draws
    obtain ⟨hlen, D2, hD2, hall2, hser⟩ := ih (j + 1)
      (blockLoop j log ({ ps0 with used := false }, st, draws)).2.1
      (blockLoop j log ({ ps0 with used := false }, st, draws)).2.2
    have hunfold : seriesLoop log j (ps0 :: rest) (st, draws) =
        ((blockLoop j log ({ ps0 with used := false }, st, draws)).1 ::
          (seriesLoop log (j + 1) rest
            ((blockLoop j log ({ ps0 with used := false }, st, draws)).2.1,
             (blockLoop j log ({ ps0 with used := false }, st, draws)).2.2)).1,
         (seriesLoop log (j + 1) rest
            ((blockLoop j log ({ ps0 with used := false }, st, draws)).2.1,
             (blockLoop j log ({ ps0 with used := false }, st, draws)).2.2)).2.1,
         (seriesLoop log (j + 1) rest
            ((blockLoop j log ({ ps0 with used := false }, st, draws)).2.1,
             (blockLoop j log ({ ps0 with used := false }, st, draws)).2.2)).2.2) := rfl
    rw [hunfold]
    refine ⟨by simp [hlen], D1 ++ D2, ?_, ?_, ?_⟩
    · show (seriesLoop log (j + 1) rest _).2.2 = _
      rw [hD2, hD1, List.append_assoc]
    · intro d hd
      rcases List.mem_append.1 hd with hd | hd
      · exact ⟨le_of_eq (hall1 d hd).1.symm, (hall1 d hd).2.1⟩
      · exact ⟨by have := (hall2 d hd).1; omega, (hall2 d hd).2⟩
    · intro i ps hps
      cases i with
      | zero =>
        have heq : ps0 = ps := by simpa using hps
        subst heq
        refine ⟨(blockLoop j log ({ ps0 with used := false }, st, draws)).1, by simp, ha, hc,
          ?_, ?_⟩
        · rw [hused1]
          simp
        · rw [List.filter_append,
            filter_index_eq_self D1 (j + 0) (fun d hd => by simpa using (hall1 d hd).1),
            filter_index_eq_nil D2 (j + 0) (fun d hd => by have := (hall2 d hd).1; omega)]
          simpa using hmap1
      | succ i =>
        have hps' : rest[i]? = some ps := by simpa using hps
        obtain ⟨ps', hget, h1, h2, h3, h4⟩ := hser i ps hps'
        refine ⟨ps', by simpa using hget, h1, h2, h3, ?_⟩
        rw [List.filter_append,
          filter_index_eq_nil D1 (j + (i + 1)) (fun d hd => by have := (hall1 d hd).1; omega)]
        have hidx : j + (i + 1) = j + 1 + i := by omega
        rw [hidx]
        simpa using h4

theorem renderableInt_iff (attribs : List PlotAttrib) (block : DataLogBlock)
    (hdim : block.dim < 2147483648) :
    RenderableInt attribs block ↔ Renderable attribs block := by
  unfold RenderableInt Renderable
  rw [wrapInt_of_lt block.dim hdim]

/-- What the series pass does for every log, in terms of the comparison of the source. -/
theorem RenderSeries_draws (plotseries : List PlotSeries) (log : List DataLogBlock)
    (st : IdScratch) :
    (RenderSeries plotseries log st).1.length = plotseries.length ∧
    (∀ d ∈ (RenderSeries plotseries log st).2.2, d.count = d.block.samples) ∧
    ∀ (i : Nat) (ps : PlotSeries), plotseries[i]? = some ps →
      ∃ ps' : PlotSeries, (RenderSeries plotseries log st).1[i]? = some ps' ∧
        ps'.attribs = ps.attribs ∧
        (ps'.used = true ↔ ∃ b ∈ log, RenderableInt ps.attribs b) ∧
        (ps'.used = true ↔
          (RenderSeries plotseries log st).2.2.filter (fun d => decide (d.index = i)) ≠ []) ∧
        ((RenderSeries plotseries log st).2.2.filter (fun d => decide (d.index = i))).map
            DrawCall.block =
          log.filter (fun b => decide (RenderableInt ps.attribs b)) := by
  obtain ⟨hlen, D, hD, hall, hser⟩ := seriesLoop_spec log plotseries 0 st []
  have hdraws : (RenderSeries plotseries log st).2.2 = D := by
    simpa [RenderSeries] using hD
  refine ⟨hlen, ?_, ?_⟩
  · intro d hd
    rw [hdraws] at hd
    exact (hall d hd).2
  · intro i ps hps
    obtain ⟨ps', hget, h1, _, h3, h4⟩ := hser i ps hps
    have h4' : (D.filter (fun d => decide (d.index = i))).map DrawCall.block =
        log.filter (fun b => decide (RenderableInt ps.attribs b)) := by
      simpa using h4
    refine ⟨ps', hget, h1, h3, ?_, ?_⟩
    · rw [hdraws, h3]
      constructor
      · rintro ⟨b, hb, hr⟩ hnil
        have hmem : b ∈ log.filter (fun b => decide (RenderableInt ps.attribs b)) :=
          List.mem_filter.2 ⟨hb, by simpa using hr⟩
        rw [← h4', hnil] at hmem
        simp at hmem
      · intro hne
        obtain ⟨d, hd⟩ := List.exists_mem_of_ne_nil _ hne
        have hmem : d.block ∈ log.filter (fun b => decide (RenderableInt ps.attribs b)) := by
          rw [← h4']
          exact List.mem_map_of_mem _ hd
        obtain ⟨hb, hr⟩ := List.mem_filter.1 hmem
        exact ⟨d.block, hb, by simpa using hr⟩
    · rw [hdraws]
      exact h4'

/-- C11, as amended: in the series pass of `Render`, for every list of series, every
value of the statics and every finite sequence of blocks whose `Dimensions()` are below
`2^31` (the values that the cast `(int)block->Dimensions()` keeps), the blocks for which
the series with index `i` issues a draw call are, in order, exactly the blocks of the log
for which every channel reference of its attribute table is `-1` or satisfies
`0 <= reference < Dimensions()`, so a skipped block does not affect the blocks after it;
each draw call draws `Samples()` vertices; and the `used` flag of the series after the
pass is true iff there is such a block, that is iff at least one draw call was issued for
the series. The pass is a total function: no block raises an error. -/
theorem RenderSeries_draws_per_block (plotseries : List PlotSeries)
    (log : List DataLogBlock) (st : IdScratch)
    (hdim : ∀ b ∈ log, b.dim < 2147483648) :
    (RenderSeries plotseries log st).1.length = plotseries.length ∧
    (∀ d ∈ (RenderSeries plotseries log st).2.2, d.count = d.block.samples) ∧
    ∀ (i : Nat) (ps : PlotSeries), plotseries[i]? = some ps →
      ∃ ps' : PlotSeries, (RenderSeries plotseries log st).1[i]? = some ps' ∧
        ps'.attribs = ps.attribs ∧
        (ps'.used = true ↔ ∃ b ∈ log, Renderable ps.attribs b) ∧
        (ps'.used = true ↔
          (RenderSeries plotseries log st).2.2.filter (fun d => decide (d.index = i)) ≠ []) ∧
        ((RenderSeries plotseries log st).2.2.filter (fun d => decide (d.index = i))).map
            DrawCall.block =
          log.filter (fun b => decide (Renderable ps.attribs b)) := by
  obtain ⟨hlen, hcount, hser⟩ := RenderSeries_draws plotseries log st
  refine ⟨hlen, hcount, ?_⟩
  intro i ps hps
  obtain ⟨ps', hget, h1, h2, h3, h4⟩ := hser i ps hps
  refine ⟨ps', hget, h1, ?_, h3, ?_⟩
  · rw [h2]
    constructor
    · rintro ⟨b, hb, hr⟩
      exact ⟨b, hb, (renderableInt_iff ps.attribs b (hdim b hb)).1 hr⟩
    · rintro ⟨b, hb, hr⟩
      exact ⟨b, hb, (renderableInt_iff ps.attribs b (hdim b hb)).2 hr⟩
  · rw [h4]
    apply List.filter_congr
    intro b hb
    have := renderableInt_iff ps.attribs b (hdim b hb)
    by_cases hr : Renderable ps.attribs b
    · simp [hr, this.2 hr]
    · have hr' : ¬ RenderableInt ps.attribs b := fun h => hr (this.1 h)
      simp [hr, hr']

/-- C11 on the series `x = "$i"`, `y = "$3"` and a log of a block with 2 channels followed
by a block with 4: the only draw call of the series is for the second block. -/
theorem RenderSeries_draws_per_block_witness :
    ¬ Renderable sampleSeries3.attribs sampleBlock2 ∧
    Renderable sampleSeries3.attribs sampleBlock4 ∧
    ((RenderSeries [sampleSeries3] [sampleBlock2, sampleBlock4] IdScratch.initial).2.2.filter
        (fun d => decide (d.index = 0))).map DrawCall.block = [sampleBlock4] := by
  obtain ⟨ps', _, _, _, _, h⟩ :=
    (RenderSeries_draws_per_block [sampleSeries3] [sampleBlock2, sampleBlock4]
      IdScratch.initial (by decide)).2.2 0 sampleSeries3 rfl
  refine ⟨by decide, by decide, ?_⟩
  rw [h]
  decide

/-- C11 fails as stated for a block of `2^31` channels: every reference of the series
`x = "$i"`, `y = "$0"` is `-1` or satisfies `0 <= reference < Dimensions()`, but the cast
`(int)block->Dimensions()` is negative, so no draw call is issued for the block and the
series is not marked used. -/
theorem RenderSeries_wide_block_counterexample :
    sampleSeries0.attribs = [PlotAttrib.mk "si".toList (-1), PlotAttrib.mk "s0".toList 0] ∧
    Renderable sampleSeries0.attribs wideBlock ∧
    wrapInt (wideBlock.dim : Int) = -2147483648 ∧
    shouldRender wideBlock sampleSeries0.attribs = false ∧
    (RenderSeries [sampleSeries0] [wideBlock] IdScratch.initial).2.2 = [] ∧
    (RenderSeries [sampleSeries0] [wideBlock] IdScratch.initial).1.map PlotSeries.used =
      [false] := by
  have hattribs : sampleSeries0.attribs =
      [PlotAttrib.mk "si".toList (-1), PlotAttrib.mk "s0".toList 0] := by decide
  have hshould : shouldRender wideBlock sampleSeries0.attribs = false := by
    rw [hattribs]; decide
  refine ⟨hattribs, by rw [hattribs]; decide, by decide, hshould, ?_, ?_⟩
  · simp [RenderSeries, seriesLoop, blockLoop, blockStep, hshould]
  · simp [RenderSeries, seriesLoop, blockLoop, blockStep, hshould]

/-! ## C12 -/

/-- C12: for every state, with key codes for which the space key is none of the four
arrow keys: if the selection is degenerate on neither axis, `Keyboard` with key `' '`
and `pressed = true` sets the target bounds to `left = sel_x[0]`, `right = sel_x[1]`,
`bottom = sel_y[0]`, `top = sel_y[1]` (the values before the call), sets
`sel_x[1] = sel_x[0]` and `sel_y[1] = sel_y[0]`, and changes nothing else; if the
selection is degenerate on either axis, or `pressed` is false, the state is unchanged. -/
theorem Keyboard_space (K : InputConstants) (p : Plotter)
    (hK : (32 : Int) ≠ K.PANGO_SPECIAL + K.PANGO_KEY_LEFT ∧
      (32 : Int) ≠ K.PANGO_SPECIAL + K.PANGO_KEY_RIGHT ∧
      (32 : Int) ≠ K.PANGO_SPECIAL + K.PANGO_KEY_UP ∧
      (32 : Int) ≠ K.PANGO_SPECIAL + K.PANGO_KEY_DOWN) :
    (p.sel_x.1 ≠ p.sel_x.2 → p.sel_y.1 ≠ p.sel_y.2 →
      p.Keyboard K 32 true =
        { p with
          target_x := (p.sel_x.1, p.sel_x.2)
          target_y := (p.sel_y.1, p.sel_y.2)
          sel_x := (p.sel_x.1, p.sel_x.1)
          sel_y := (p.sel_y.1, p.sel_y.1) }) ∧
    (p.sel_x.1 = p.sel_x.2 ∨ p.sel_y.1 = p.sel_y.2 → p.Keyboard K 32 true = p) ∧
    p.Keyboard K 32 false = p := by
  obtain ⟨h1, h2, h3, h4⟩ := hK
  refine ⟨?_, ?_, ?_⟩
  · intro hx hy
    simp [Plotter.Keyboard, Plotter.SetViewPan, hx, hy]
  · intro hdeg
    have hcond : ¬ ((32 : Nat) = 32 ∧ p.sel_x.1 ≠ p.sel_x.2 ∧ p.sel_y.1 ≠ p.sel_y.2) := by
      rintro ⟨_, hx, hy⟩
      rcases hdeg with h | h
      · exact hx h
      · exact hy h
    have c1 : ¬ (((32 : Nat) : Int) = K.PANGO_SPECIAL + K.PANGO_KEY_LEFT) := by
      simpa using h1
    have c2 : ¬ (((32 : Nat) : Int) = K.PANGO_SPECIAL + K.PANGO_KEY_RIGHT) := by
      simpa using h2
    have c3 : ¬ (((32 : Nat) : Int) = K.PANGO_SPECIAL + K.PANGO_KEY_UP) := by
      simpa using h3
    have c4 : ¬ (((32 : Nat) : Int) = K.PANGO_SPECIAL + K.PANGO_KEY_DOWN) := by
      simpa using h4
    unfold Plotter.Keyboard
    rw [if_pos rfl, if_neg hcond, if_neg c1, if_neg c2, if_neg c3, if_neg c4]
  · simp [Plotter.Keyboard]

/-- C12 on `samplePlotter` (selection `(2,5)x(2,5)`): the space key makes `(2,5)x(2,5)`
the target and collapses the selection to the point `(2,2)`; the current view stays
`(0,10)x(0,10)`. -/
theorem Keyboard_space_witness :
    (samplePlotter.Keyboard sampleConstants 32 true).target_x = (2, 5) ∧
    (samplePlotter.Keyboard sampleConstants 32 true).target_y = (2, 5) ∧
    (samplePlotter.Keyboard sampleConstants 32 true).sel_x = (2, 2) ∧
    (samplePlotter.Keyboard sampleConstants 32 true).sel_y = (2, 2) ∧
    (samplePlotter.Keyboard sampleConstants 32 true).int_x = (0, 10) ∧
    (samplePlotter.Keyboard sampleConstants 32 true).int_y = (0, 10) := by
  have h := (Keyboard_space sampleConstants samplePlotter (by decide)).1
    (by simp [samplePlotter]) (by simp [samplePlotter])
  rw [h]
  simp [samplePlotter]

/-! ## C13 -/

/-- C13, evaluated on a state whose view `(0,10)x(0,10)` differs in extent from its
target `(0,20)x(0,40)`: the left key shifts `target_x` by 1, a tenth of the extent of the
current view, but the right key shifts it by 2 and the up and down keys shift `target_y`
by 4, a tenth of the extent of the target; a tenth of the current extent would give
`(1,21)`, `(1,41)` and `(-1,39)`. The current bounds, the other axis and the selection
are unchanged. -/
theorem Keyboard_arrow_extent :
    (easingPlotter.Keyboard sampleConstants 228 true).target_x = (-1, 19) ∧
    (easingPlotter.Keyboard sampleConstants 230 true).target_x = (2, 22) ∧
    (easingPlotter.Keyboard sampleConstants 230 true).target_x ≠ (1, 21) ∧
    (easingPlotter.Keyboard sampleConstants 229 true).target_y = (4, 44) ∧
    (easingPlotter.Keyboard sampleConstants 229 true).target_y ≠ (1, 41) ∧
    (easingPlotter.Keyboard sampleConstants 231 true).target_y = (-4, 36) ∧
    (easingPlotter.Keyboard sampleConstants 231 true).target_y ≠ (-1, 39) ∧
    (∀ key ∈ [228, 229, 230, 231],
      (easingPlotter.Keyboard sampleConstants key true).int_x = easingPlotter.int_x ∧
      (easingPlotter.Keyboard sampleConstants key true).int_y = easingPlotter.int_y ∧
      (easingPlotter.Keyboard sampleConstants key true).sel_x = easingPlotter.sel_x ∧
      (easingPlotter.Keyboard sampleConstants key true).sel_y = easingPlotter.sel_y) := by
  refine ⟨?_, ?_, ?_, ?_, ?_, ?_, ?_, ?_⟩ <;>
    norm_num [Plotter.Keyboard, easingPlotter, samplePlotter, sampleConstants]

/-! ## C14 -/

theorem fill_length (f : Nat → Option ℚ) (n : Nat) (arr : List (Option ℚ)) :
    ((List.range n).foldl (fun a k => a.set k (f k)) arr).length = arr.length := by
  induction n with
  | zero => simp
  | succ n ih =>
    rw [List.range_succ, List.foldl_append]
    simp only [List.foldl_cons, List.foldl_nil, List.length_set]
    exact ih

theorem fill_getElem? (f : Nat → Option ℚ) (n : Nat) (arr : List (Option ℚ)) (k : Nat)
    (hk : k < n) (hlen : n ≤ arr.length) :
    ((List.range n).foldl (fun a k => a.set k (f k)) arr)[k]? = some (f k) := by
  induction n with
  | zero => omega
  | succ n ih =>
    rw [List.range_succ, List.foldl_append]
    simp only [List.foldl_cons, List.foldl_nil]
    by_cases hkn : k = n
    · subst hkn
      rw [List.getElem?_set_self]
      rw [fill_length]
      omega
    · rw [List.getElem?_set_ne (by omega)]
      exact ih (by omega) (by omega)

theorem floatOfNat_exact (n : Nat) (h : n ≤ 16777216) : floatOfNat n = n := by
  simp [floatOfNat, h]

/-- After the update of the index array for a block, the statics are consistent again and
the array holds the global positions of the samples of the block, converted to `float`. -/
theorem updateIdArray_spec (st : IdScratch) (block : DataLogBlock)
    (hst : st.Consistent) (hb : block.samples ≤ block.max_samples) :
    (updateIdArray st block).Consistent ∧
    block.samples ≤ (updateIdArray st block).id_array.length ∧
    ∀ k, k < block.samples →
      (updateIdArray st block).id_array[k]? =
        some (some ((floatOfNat (block.start_id + k) : Nat) : ℚ)) := by
  obtain ⟨hlen, hstart⟩ := hst
  have hne : (-1 : Int) ≠ (block.start_id : Int) := by omega
  by_cases hsize : st.id_size < block.samples
  · have hupd : updateIdArray st block =
        { id_start := -1, id_size := block.max_samples,
          id_array := (List.range block.max_samples).foldl
            (fun arr k => arr.set k (some ((floatOfNat (block.start_id + k) : Nat) : ℚ)))
            (List.replicate block.max_samples none) } := by
      simp [updateIdArray, hsize, hne]
    rw [hupd]
    refine ⟨⟨?_, Or.inl rfl⟩, ?_, ?_⟩
    · simp only [fill_length, List.length_replicate]
    · simp only [fill_length, List.length_replicate]
      exact hb
    · intro k hk
      exact fill_getElem? _ _ _ k (by omega) (by simp)
  · rcases hstart with hs | hs
    · have hne' : st.id_start ≠ (block.start_id : Int) := by rw [hs]; exact hne
      have hupd : updateIdArray st block =
          { st with
            id_array := (List.range st.id_size).foldl
              (fun arr k => arr.set k (some ((floatOfNat (block.start_id + k) : Nat) : ℚ)))
              st.id_array } := by
        simp [updateIdArray, hsize, hne']
      rw [hupd]
      refine ⟨⟨?_, Or.inl hs⟩, ?_, ?_⟩
      · simp only [fill_length]
        exact hlen
      · simp only [fill_length]
        omega
      · intro k hk
        exact fill_getElem? _ _ _ k (by omega) (by omega)
    · have hzero : block.samples = 0 := by omega
      have hcons : (updateIdArray st block).id_array.length = st.id_size ∧
          (updateIdArray st block).id_size = st.id_size := by
        unfold updateIdArray
        simp only [hsize, if_false]
        split_ifs
        · exact ⟨by simp only [fill_length]; exact hlen, rfl⟩
        · exact ⟨hlen, rfl⟩
      refine ⟨⟨by rw [hcons.1, hcons.2], Or.inr (by rw [hcons.2]; exact hs)⟩, by omega, ?_⟩
      intro k hk
      omega

theorem blockStep_ok (i : Nat) (ps : PlotSeries) (st : IdScratch) (draws : List DrawCall)
    (block : DataLogBlock) (hb : block.samples ≤ block.max_samples)
    (hpos : ∀ k, k < block.samples → block.start_id + k ≤ 16777216)
    (hst : st.Consistent) (hd : DrawsOk draws) :
    (blockStep i (ps, st, draws) block).2.1.Consistent ∧
    DrawsOk (blockStep i (ps, st, draws) block).2.2 := by
  obtain ⟨h1, h2, h3'⟩ := updateIdArray_spec st block hst hb
  have h3 : ∀ k, k < block.samples →
      (updateIdArray st block).id_array[k]? =
        some (some ((block.start_id + k : Nat) : ℚ)) := by
    intro k hk
    rw [h3' k hk, floatOfNat_exact _ (hpos k hk)]
  have hst' : (if ps.contains_id = true then updateIdArray st block else st).Consistent := by
    split_ifs
    · exact h1
    · exact hst
  by_cases hr : shouldRender block ps.attribs = true
  · have hstep : blockStep i (ps, st, draws) block =
        ({ ps with used := true },
         (if ps.contains_id = true then updateIdArray st block else st),
         draws ++ [{ index := i, ps := ps, block := block, count := block.samples,
                     id_array :=
                       (if ps.contains_id = true then updateIdArray st block else st).id_array }]) := by
      simp [blockStep, hr]
    rw [hstep]
    refine ⟨hst', ?_⟩
    intro d hd'
    rcases List.mem_append.1 hd' with hd' | hd'
    · exact hd d hd'
    · simp only [List.mem_singleton] at hd'
      subst hd'
      intro hc
      have hc' : ps.contains_id = true := hc
      show block.samples ≤
          (if ps.contains_id = true then updateIdArray st block else st).id_array.length ∧
        ∀ k, k < block.samples →
          (if ps.contains_id = true then updateIdArray st block else st).id_array[k]? =
            some (some ((block.start_id + k : Nat) : ℚ))
      rw [if_pos hc']
      exact ⟨h2, h3⟩
  · have hstep : blockStep i (ps, st, draws) block =
        (ps, (if ps.contains_id = true then updateIdArray st block else st), draws) := by
      simp [blockStep, hr]
    rw [hstep]
    exact ⟨hst', hd⟩

theorem blockLoop_ok (i : Nat) (log : List DataLogBlock)
    (hlog : ∀ b ∈ log, b.samples ≤ b.max_samples)
    (hpos : ∀ b ∈ log, ∀ k, k < b.samples → b.start_id + k ≤ 16777216)
    (ps : PlotSeries) (st : IdScratch)
    (draws : List DrawCall) (hst : st.Consistent) (hd : DrawsOk draws) :
    (blockLoop i log (ps, st, draws)).2.1.Consistent ∧
    DrawsOk (blockLoop i log (ps, st, draws)).2.2 := by
  induction log generalizing ps st draws with
  | nil => exact ⟨hst, hd⟩
  | cons b rest ih =>
    have hfold : blockLoop i (b :: rest) (ps, st, draws) =
        blockLoop i rest (blockStep i (ps, st, draws) b) := rfl
    rw [hfold]
    obtain ⟨h1, h2⟩ := blockStep_ok i ps st draws b (hlog b (List.mem_cons_self _ _))
      (hpos b (List.mem_cons_self _ _)) hst hd
    exact ih (fun c hc => hlog c (List.mem_cons_of_mem _ hc))
      (fun c hc => hpos c (List.mem_cons_of_mem _ hc)) _ _ _ h1 h2

theorem seriesLoop_ok (log : List DataLogBlock)
    (hlog : ∀ b ∈ log, b.samples ≤ b.max_samples)
    (hpos : ∀ b ∈ log, ∀ k, k < b.samples → b.start_id + k ≤ 16777216)
    (l : List PlotSeries) :
    ∀ (j : Nat) (st : IdScratch) (draws : List DrawCall), st.Consistent → DrawsOk draws →
      (seriesLoop log j l (st, draws)).2.1.Consistent ∧
      DrawsOk (seriesLoop log j l (st, draws)).2.2 := by
  induction l with
  | nil => intro j st draws hst hd; exact ⟨hst, hd⟩
  | cons ps rest ih =>
    intro j st draws hst hd
    obtain ⟨h1, h2⟩ := blockLoop_ok j log hlog hpos { ps with used := false } st draws hst hd
    exact ih (j + 1) _ _ h1 h2

theorem renderFrames_ok (frames : List (List PlotSeries × List DataLogBlock))
    (h : ∀ f ∈ frames, ∀ b ∈ f.2, b.samples ≤ b.max_samples)
    (hpos : ∀ f ∈ frames, ∀ b ∈ f.2, ∀ k, k < b.samples → b.start_id + k ≤ 16777216) :
    ∀ (st : IdScratch) (draws : List DrawCall), st.Consistent → DrawsOk draws →
      (renderFrames frames (st, draws)).1.Consistent ∧
      DrawsOk (renderFrames frames (st, draws)).2 := by
  induction frames with
  | nil => intro st draws hst hd; exact ⟨hst, hd⟩
  | cons f rest ih =>
    intro st draws hst hd
    have hf := h f (List.mem_cons_self _ _)
    have hfpos := hpos f (List.mem_cons_self _ _)
    obtain ⟨h1, h2⟩ := seriesLoop_ok f.2 hf hfpos f.1 0 st [] hst (fun d hd' => by simp at hd')
    have hunfold : renderFrames (f :: rest) (st, draws) =
        renderFrames rest ((RenderSeries f.1 f.2 st).2.1,
          draws ++ (RenderSeries f.1 f.2 st).2.2) := rfl
    rw [hunfold]
    refine ih (fun g hg => h g (List.mem_cons_of_mem _ hg))
      (fun g hg => hpos g (List.mem_cons_of_mem _ hg)) _ _ h1 ?_
    intro d hd'
    rcases List.mem_append.1 hd' with hd' | hd'
    · exact hd d hd'
    · exact h2 d hd'

theorem CreatePlot_contains_id_iff (ps : PlotSeries) (x y : List Char) (colour : Colour)
    (title : List Char) :
    (ps.CreatePlot x y colour title).contains_id = true ↔
      ∃ a ∈ (ps.CreatePlot x y colour title).attribs, a.plot_id = -1 := by
  have hids := CreatePlot_plot_ids ps x y colour title
  have hc : (ps.CreatePlot x y colour title).contains_id = true ↔
      (-1 : Int) ∈ channelSet x y := by
    simp [PlotSeries.CreatePlot]
  rw [hc, ← hids, List.mem_map]

/-- C14, as amended: starting from the initial statics (`id_start = 0`, `id_size = 0`, no
array) and over any number of frames, each with its own series and its own finite
sequence of blocks in which every block has `Samples() <= MaxSamples()` and sample
positions `StartId() + k`, `k < Samples()`, of at most `2^24` (the integers that the
`float` entries of the array keep exactly), every draw call made for a series whose
`contains_id` is set is made with an index array that holds at least `Samples()` entries,
entry `k` being `StartId() + k` for every `k < Samples()`, and this is the value that the
GL reads at vertex `k` for an attribute of reference `-1`. For a series configured by
`CreatePlot`, `contains_id` is set iff its attribute table has an entry of reference
`-1`. -/
theorem index_array_global_position (frames : List (List PlotSeries × List DataLogBlock))
    (h : ∀ f ∈ frames, ∀ b ∈ f.2, b.samples ≤ b.max_samples)
    (hpos : ∀ f ∈ frames, ∀ b ∈ f.2, ∀ k, k < b.samples → b.start_id + k ≤ 16777216) :
    (∀ d ∈ (renderFrames frames (IdScratch.initial, [])).2, d.ps.contains_id = true →
      d.block.samples ≤ d.id_array.length ∧
      (∀ k, k < d.block.samples →
        d.id_array[k]? = some (some ((d.block.start_id + k : Nat) : ℚ))) ∧
      (∀ a : PlotAttrib, a.plot_id = -1 → ∀ k, k < d.block.samples →
        d.attribValue a k = some ((d.block.start_id + k : Nat) : ℚ))) ∧
    (∀ (ps : PlotSeries) (x y : List Char) (colour : Colour) (title : List Char),
      (ps.CreatePlot x y colour title).contains_id = true ↔
        ∃ a ∈ (ps.CreatePlot x y colour title).attribs, a.plot_id = -1) := by
  have hinit : IdScratch.initial.Consistent := ⟨rfl, Or.inr rfl⟩
  have hok := (renderFrames_ok frames h hpos IdScratch.initial [] hinit
    (fun d hd => by simp at hd)).2
  refine ⟨?_, CreatePlot_contains_id_iff⟩
  intro d hd hc
  obtain ⟨h1, h2⟩ := hok d hd hc
  refine ⟨h1, h2, ?_⟩
  intro a ha k hk
  have hwrap := Int.emod_nonneg ((d.block.dim : Int) + 2147483648)
    (by norm_num : (4294967296 : Int) ≠ 0)
  have hneg : ¬ (0 ≤ a.plot_id ∧ a.plot_id < wrapInt (d.block.dim : Int)) := by
    rw [ha]; unfold wrapInt; omega
  unfold DrawCall.attribValue
  rw [if_neg hneg, if_pos ha, h2 k hk]
  rfl

/-- C14 on one frame with the series `x = "$i"`, `y = "$0"` and one block with `StartId`
0 and the 3 samples `[0.1, -0.2, 0.3]` in channel 0: one draw call of 3 vertices, whose
attributes `(si, s0)` are `(0, 0.1)`, `(1, -0.2)`, `(2, 0.3)`; the generated source sets
`x` to `si` and `y` to `s0`. -/
theorem index_array_global_position_witness :
    sampleSeries0.attribs = [PlotAttrib.mk "si".toList (-1), PlotAttrib.mk "s0".toList 0] ∧
    "float x = si;\nfloat y = s0;\n".toList <:+: vertexSource "$i".toList "$0".toList ∧
    (renderFrames [([sampleSeries0], [sampleBlock1])] (IdScratch.initial, [])).2.map
        (fun d => (List.range d.count).map (fun k =>
          (d.attribValue (PlotAttrib.mk "si".toList (-1)) k,
           d.attribValue (PlotAttrib.mk "s0".toList 0) k))) =
      [[(some 0, some (1 / 10)), (some 1, some (-(1 / 5))), (some 2, some (3 / 10))]] ∧
    (∀ d ∈ (renderFrames [([sampleSeries0], [sampleBlock1])] (IdScratch.initial, [])).2,
      d.ps.contains_id = true → d.block.samples ≤ d.id_array.length) := by
  have hattribs : sampleSeries0.attribs =
      [PlotAttrib.mk "si".toList (-1), PlotAttrib.mk "s0".toList 0] := by decide
  have hid : sampleSeries0.contains_id = true := by decide
  have hw1 : wrapInt 1 = 1 := by decide
  have hf0 : floatOfNat 0 = 0 := by decide
  have hf1 : floatOfNat 1 = 1 := by decide
  have hf2 : floatOfNat 2 = 2 := by decide
  have hdraws : (renderFrames [([sampleSeries0], [sampleBlock1])] (IdScratch.initial, [])).2 =
      [{ index := 0, ps := { sampleSeries0 with used := false }, block := sampleBlock1,
         count := 3, id_array := [some 0, some 1, some 2] }] := by
    simp [renderFrames, RenderSeries, seriesLoop, blockLoop, blockStep, shouldRender,
      updateIdArray, IdScratch.initial, hattribs, hid, sampleBlock1, List.range_succ, hw1,
      hf0, hf1, hf2]
  refine ⟨hattribs, ?_, ?_, ?_⟩
  · exact ⟨(attribLoop (channelSet "$i".toList "$0".toList) ([], [])).2 ++ vs_header,
      vs_footer, by simp [vertexSource]; decide⟩
  · rw [hdraws]
    simp [DrawCall.attribValue, DataLogBlock.DimData, sampleBlock1, List.range_succ, hw1]
  · intro d hd hc
    exact ((index_array_global_position [([sampleSeries0], [sampleBlock1])]
      (by decide) (by decide)).1 d hd hc).1

/-- C14 fails as stated for a block that starts at the global position `2^24`: its two
samples have the positions `16777216` and `16777217`, and `Samples() <= MaxSamples()`
holds, but the array is an array of `float`: the entry written for `k = 1` is
`16777216`, the float nearest to `16777217`, so both vertices of the draw call read the
same index. -/
theorem index_array_rounding_counterexample :
    lateBlock.samples ≤ lateBlock.max_samples ∧
    sampleSeries0.contains_id = true ∧
    floatOfNat (lateBlock.start_id + 1) = 16777216 ∧
    (renderFrames [([sampleSeries0], [lateBlock])] (IdScratch.initial, [])).2.map
        DrawCall.id_array = [[some 16777216, some 16777216]] ∧
    (renderFrames [([sampleSeries0], [lateBlock])] (IdScratch.initial, [])).2.map
        (fun d => d.attribValue (PlotAttrib.mk "si".toList (-1)) 1) = [some 16777216] ∧
    (16777216 : ℚ) ≠ ((lateBlock.start_id + 1 : Nat) : ℚ) := by
  have hattribs : sampleSeries0.attribs =
      [PlotAttrib.mk "si".toList (-1), PlotAttrib.mk "s0".toList 0] := by decide
  have hid : sampleSeries0.contains_id = true := by decide
  have hw1 : wrapInt 1 = 1 := by decide
  have hf0 : floatOfNat 16777216 = 16777216 := by decide
  have hf1 : floatOfNat 16777217 = 16777216 := by decide
  have hdraws : (renderFrames [([sampleSeries0], [lateBlock])] (IdScratch.initial, [])).2 =
      [{ index := 0, ps := { sampleSeries0 with used := false }, block := lateBlock,
         count := 2, id_array := [some 16777216, some 16777216] }] := by
    simp [renderFrames, RenderSeries, seriesLoop, blockLoop, blockStep, shouldRender,
      updateIdArray, IdScratch.initial, hattribs, hid, lateBlock, List.range_succ, hw1,
      hf0, hf1]
  refine ⟨by decide, hid, hf1, ?_, ?_, ?_⟩
  · rw [hdraws]; rfl
  · rw [hdraws]
    simp [DrawCall.attribValue, hw1, lateBlock]
  · norm_num [lateBlock]

end Pangolin
